import Mathlib

/-!
Shallow embedding of the chess engine in `src/game.rs` (repository
machineonamission/rust_chess), together with proofs settling the claims of
the specification against it.

Conventions of the embedding:
* `i8` coordinates become `Int`; board/table indexing converts to `Nat`
  after the range check the Rust code performs (or fails to perform).
* `u8`/`u16` clocks become `Nat`.  No reachable computation in the claims
  exercises their wrap-around/overflow behaviour.
* Rust `Vec<Move>` used as a stack (push to the end, pop from the end,
  `last()`): embedded as a Lean `List Move` with the **newest element
  first**, so push = cons, pop = head/tail, `last()` = `head?`.
* Code that can panic (out-of-range slice indexing, `unwrap()` of `None`)
  is embedded with `Option`, `none` standing for the panic.
* The timing/printing side effects in `compute_legal_moves`
  (`Instant::now`, `println!`) have no state effect and are omitted.
-/

set_option maxRecDepth 100000

namespace Chess

/-- `enum PieceType` from game.rs. -/
inductive PieceType where
  | Pawn | Knight | Bishop | Rook | Queen | King
deriving DecidableEq, Repr

/-- `enum Castling` from game.rs. -/
inductive Castling where
  | BlackKingside | BlackQueenside | WhiteKingside | WhiteQueenside
deriving DecidableEq, Repr

/-- `enum Color` from game.rs. -/
inductive Color where
  | Black | White
deriving DecidableEq, Repr

/-- `Color::invert`. -/
def Color.invert : Color → Color
  | .Black => .White
  | .White => .Black

/-- `struct Piece`. -/
structure Piece where
  piece_type : PieceType
  color : Color
deriving DecidableEq, Repr

/-- `type Square = (i8, i8)`, i.e. (row, col). -/
abbrev Square := Int × Int

/-- `struct CastlingRights`. -/
structure CastlingRights where
  white_queenside : Bool
  white_kingside : Bool
  black_queenside : Bool
  black_kingside : Bool
deriving DecidableEq, Repr

/-- `Default for CastlingRights`: all rights held. -/
def CastlingRights.defaultRights : CastlingRights :=
  { white_queenside := true, white_kingside := true
    black_queenside := true, black_kingside := true }

/-- The all-false rights value used as `Move`'s default `losing_castle_rights`. -/
def CastlingRights.noRights : CastlingRights :=
  { white_queenside := false, white_kingside := false
    black_queenside := false, black_kingside := false }

/-- `struct Move` from game.rs.  The Rust field `from` is a Lean keyword and
is embedded as `from_`. -/
structure Move where
  from_ : Square
  to_ : Square
  capture : Option PieceType
  castle : Option Castling
  losing_castle_rights : CastlingRights
  promotion : Option PieceType
  en_passant_capture : Option Square
  en_passant_target_square : Option Square
  halfmove_clock : Nat
deriving DecidableEq, Repr

/-- `Default for Move`. -/
def Move.defaultMove : Move :=
  { from_ := (0, 0), to_ := (0, 0), capture := none, castle := none
    losing_castle_rights := CastlingRights.noRights, promotion := none
    en_passant_capture := none, en_passant_target_square := none
    halfmove_clock := 0 }

/-- The 8×8 board `[[Option<Piece>; 8]; 8]`. -/
abbrev Board := List (List (Option Piece))

/-- Raw board read `self.board[row as usize][col as usize]` (callers have
validated the square). -/
def boardGet (b : Board) (sq : Square) : Option Piece :=
  (b.getD sq.1.toNat []).getD sq.2.toNat none

/-- Raw board write `self.board[row as usize][col as usize] = v`. -/
def boardSet (b : Board) (sq : Square) (v : Option Piece) : Board :=
  b.set sq.1.toNat ((b.getD sq.1.toNat []).set sq.2.toNat v)

/-- The 8×8 table of cached legal-move lists `[[Vec<Move>; 8]; 8]`. -/
abbrev MoveTable := List (List (List Move))

/-- Table read with valid indices (as in `any_king_captures`). -/
def tableGet (t : MoveTable) (sq : Square) : List Move :=
  (t.getD sq.1.toNat []).getD sq.2.toNat []

/-- `struct Game`. -/
structure Game where
  board : Board
  turn : Color
  castling_rights : CastlingRights
  en_passant_target_square : Option Square
  halfmove_clock : Nat
  fullmove_number : Nat
  moves : List Move
  legal_moves : MoveTable
deriving Repr

/-- `is_valid_square`. -/
def is_valid_square (sq : Square) : Option Square :=
  if 0 ≤ sq.1 ∧ sq.1 < 8 ∧ 0 ≤ sq.2 ∧ sq.2 < 8 then some (sq.1, sq.2) else none

/-- `Game::piece_at_square`: total, returns `none` (empty) for
out-of-range coordinates. -/
def Game.piece_at_square (g : Game) (square : Square) : Option Piece :=
  match is_valid_square square with
  | some (row, col) => boardGet g.board (row, col)
  | none => none

/-- `Game::generic_move`.  The `unwrap()` on the piece at `from` can only
panic when `from` is empty, which never happens at the call sites; that
panic is embedded as `none` (no move). -/
def Game.generic_move (g : Game) (from_ : Square) (to_ : Square) : Option Move :=
  match is_valid_square to_ with
  | none => none
  | some _ =>
    match g.piece_at_square from_ with
    | none => none
    | some p =>
      match g.piece_at_square to_ with
      | none =>
        some { Move.defaultMove with
                from_ := from_, to_ := to_, halfmove_clock := g.halfmove_clock + 1 }
      | some capture_piece =>
        if capture_piece.color ≠ p.color then
          some { Move.defaultMove with
                  from_ := from_, to_ := to_, capture := some capture_piece.piece_type }
        else none

/-- `Game::legal_moves_on_square`.  The Rust code indexes the 8×8 table with
`square.0 as usize`/`square.1 as usize` with no range check, so a negative
or ≥ 8 coordinate indexes out of bounds and panics; the panic is `none`. -/
def Game.legal_moves_on_square (g : Game) (square : Square) : Option (List Move) :=
  if 0 ≤ square.1 ∧ square.1 < 8 ∧ 0 ≤ square.2 ∧ square.2 < 8 then
    some (tableGet g.legal_moves square)
  else none

/-- The hardcoded `KNIGHT_MOVES` offsets. -/
def KNIGHT_MOVES : List (Int × Int) :=
  [(-2, -1), (-1, -2), (-2, 1), (1, -2), (2, -1), (-1, 2), (2, 1), (1, 2)]

/-- The hardcoded `KING_MOVES` offsets. -/
def KING_MOVES : List (Int × Int) :=
  [(-1, -1), (-1, 0), (-1, 1), (0, -1), (0, 1), (1, -1), (1, 0), (1, 1)]

/-- The castling-rights stamping a rook performs on its generated moves
(the `if rook { ... }` block inside `repeated_moves_on_direction`):
a rook on its home corner marks that wing's right (if currently held)
as lost by the move. -/
def stampRookRights (g : Game) (color : Color) (row col : Int) (m : Move) : Move :=
  match color with
  | .Black =>
    if row = 0 then
      if col = 0 then
        { m with losing_castle_rights :=
            { m.losing_castle_rights with black_queenside := g.castling_rights.black_queenside } }
      else if col = 7 then
        { m with losing_castle_rights :=
            { m.losing_castle_rights with black_kingside := g.castling_rights.black_kingside } }
      else m
    else m
  | .White =>
    if row = 7 ∧ (col = 0 ∨ col = 7) then
      if col = 0 then
        { m with losing_castle_rights :=
            { m.losing_castle_rights with white_queenside := g.castling_rights.white_queenside } }
      else if col = 7 then
        { m with losing_castle_rights :=
            { m.losing_castle_rights with white_kingside := g.castling_rights.white_kingside } }
      else m
    else m

/-- One direction of `repeated_moves_on_direction`: walk from `square` by
multiples of `dir`, emitting a move per empty square and one final capture,
stopping at the first occupied square or the board edge.  A ray leaves the
board within 8 steps, so fuel 8 suffices and the fuel-0 case is dead code. -/
def rayGo (g : Game) (square : Square) (color : Color) (rook : Bool)
    (dir : Int × Int) : Nat → Int × Int → List Move
  | 0, _ => []
  | fuel + 1, offset =>
    match g.generic_move square (square.1 + offset.1, square.2 + offset.2) with
    | none => []
    | some m =>
      let m := if rook then stampRookRights g color square.1 square.2 m else m
      if m.capture.isSome then [m]
      else m :: rayGo g square color rook dir fuel (offset.1 + dir.1, offset.2 + dir.2)

/-- `repeated_moves_on_direction` over a direction set. -/
def repeated_moves_on_direction (g : Game) (square : Square) (color : Color)
    (rook : Bool) (dirs : List (Int × Int)) : List Move :=
  dirs.flatMap fun dir => rayGo g square color rook dir 8 dir

/-- The pawn arm of `compute_legal_moves_on_square`: diagonal captures
(including en passant), single and double advances, then promotion
expansion (Queen then Knight) for moves reaching the last rank. -/
def pawnMoves (g : Game) (square : Square) (color : Color) : List Move :=
  let row := square.1
  let col := square.2
  let direction : Int := match color with | .Black => 1 | .White => -1
  let torow := row + direction
  let captures := ([-1, 1] : List Int).filterMap fun capture_direction =>
    match is_valid_square (torow, col + capture_direction) with
    | none => none
    | some capture_square =>
      match g.piece_at_square capture_square with
      | some capture =>
        if capture.color ≠ color then
          some { Move.defaultMove with
                  from_ := square, to_ := capture_square
                  capture := some capture.piece_type }
        else none
      | none =>
        if some capture_square = g.en_passant_target_square then
          some { Move.defaultMove with
                  from_ := square, to_ := capture_square
                  capture := some PieceType.Pawn
                  en_passant_capture := some (row, col + capture_direction) }
        else none
  let one_ahead : Square := (torow, col)
  let forwards :=
    if (g.piece_at_square one_ahead).isNone then
      let single := { Move.defaultMove with from_ := square, to_ := one_ahead }
      if (row = 6 ∧ color = Color.White) ∨ (row = 1 ∧ color = Color.Black) then
        let two_ahead : Square := (row + direction * 2, col)
        if (g.piece_at_square two_ahead).isNone then
          [single,
           { Move.defaultMove with
              from_ := square, to_ := two_ahead
              en_passant_target_square := some (row + direction, col) }]
        else [single]
      else [single]
    else []
  let pawn_moves := captures ++ forwards
  let promotion := torow = 7 ∨ torow = 0
  pawn_moves.flatMap fun mov =>
    if promotion then
      [{ mov with promotion := some PieceType.Queen },
       { mov with promotion := some PieceType.Knight }]
    else [mov]

/-- The king arm of `compute_legal_moves_on_square`: the 8 unit offsets,
then the kingside castle, then the queenside castle.  The castle checks
use the king's *current* row and do not check the rook's presence. -/
def kingMoves (g : Game) (square : Square) (color : Color) : List Move :=
  let row := square.1
  let generic := KING_MOVES.filterMap fun mov =>
    g.generic_move square (square.1 + mov.1, square.2 + mov.2)
  let castling_queenside := match color with
    | .Black => g.castling_rights.black_queenside
    | .White => g.castling_rights.white_queenside
  let castling_kingside := match color with
    | .Black => g.castling_rights.black_kingside
    | .White => g.castling_rights.white_kingside
  let lose_all_castling : CastlingRights :=
    { white_queenside := color = Color.White ∧ g.castling_rights.white_queenside
      white_kingside := color = Color.White ∧ g.castling_rights.white_kingside
      black_queenside := color = Color.Black ∧ g.castling_rights.black_queenside
      black_kingside := color = Color.Black ∧ g.castling_rights.black_kingside }
  let kingside :=
    if castling_kingside then
      if (g.piece_at_square (row, 5)).isNone ∧ (g.piece_at_square (row, 6)).isNone then
        [{ Move.defaultMove with
            from_ := square, to_ := (row, 6)
            castle := some (match color with
              | .Black => Castling.BlackKingside
              | .White => Castling.WhiteKingside)
            losing_castle_rights := lose_all_castling
            halfmove_clock := g.halfmove_clock + 1 }]
      else []
    else []
  let queenside :=
    if castling_queenside then
      if (g.piece_at_square (row, 1)).isNone ∧ (g.piece_at_square (row, 2)).isNone ∧
         (g.piece_at_square (row, 3)).isNone then
        [{ Move.defaultMove with
            from_ := square, to_ := (row, 2)
            castle := some (match color with
              | .Black => Castling.BlackQueenside
              | .White => Castling.WhiteQueenside)
            losing_castle_rights := lose_all_castling }]
      else []
    else []
  generic ++ kingside ++ queenside

/-- The sliding arm (`_ =>` in the Rust match): rook/queen walk the
orthogonal directions, bishop/queen the diagonals. -/
def slidingMoves (g : Game) (square : Square) (color : Color)
    (piece_type : PieceType) : List Move :=
  let rook := piece_type = PieceType.Rook
  let orth :=
    if piece_type = PieceType.Rook ∨ piece_type = PieceType.Queen then
      repeated_moves_on_direction g square color rook [(1, 0), (0, 1), (-1, 0), (0, -1)]
    else []
  let diag :=
    if piece_type = PieceType.Bishop ∨ piece_type = PieceType.Queen then
      repeated_moves_on_direction g square color rook [(1, 1), (-1, 1), (1, -1), (-1, -1)]
    else []
  orth ++ diag

/-- `Game::compute_legal_moves_on_square`: pseudo-legal moves of the piece
on `square`; empty for an empty square or an opponent's piece. -/
def Game.compute_legal_moves_on_square (g : Game) (square : Square) : List Move :=
  match g.piece_at_square square with
  | none => []
  | some piece_some =>
    if piece_some.color ≠ g.turn then []
    else
      match piece_some.piece_type with
      | .Pawn => pawnMoves g square piece_some.color
      | .Knight =>
        KNIGHT_MOVES.filterMap fun mov =>
          g.generic_move square (square.1 + mov.1, square.2 + mov.2)
      | .King => kingMoves g square piece_some.color
      | pt => slidingMoves g square piece_some.color pt

/-- `Game::move_piece`: `board[to] = board[from].take()`. -/
def move_piece (b : Board) (from_ : Square) (to_ : Square) : Board :=
  boardSet (boardSet b from_ none) to_ (boardGet b from_)

/-- `Game::make_move`.  The promotion write
`self.board[...][...].unwrap().piece_type = p` mutates the *copy* returned
by `unwrap()` (Option<Piece> is Copy), so the board is not changed by it;
the embedding therefore performs no promotion update. -/
def Game.make_move (g : Game) (mov : Move) : Game :=
  let fullmove_number :=
    if g.turn = Color.Black then g.fullmove_number + 1 else g.fullmove_number
  let board :=
    match mov.en_passant_capture with
    | some c => boardSet g.board c none
    | none => g.board
  let board :=
    match mov.castle with
    | some .BlackKingside => move_piece board (0, 7) (0, 5)
    | some .BlackQueenside => move_piece board (0, 0) (0, 3)
    | some .WhiteKingside => move_piece board (7, 7) (7, 5)
    | some .WhiteQueenside => move_piece board (7, 0) (7, 3)
    | none => board
  let castling_rights : CastlingRights :=
    { black_queenside := g.castling_rights.black_queenside && !mov.losing_castle_rights.black_queenside
      black_kingside := g.castling_rights.black_kingside && !mov.losing_castle_rights.black_kingside
      white_queenside := g.castling_rights.white_queenside && !mov.losing_castle_rights.white_queenside
      white_kingside := g.castling_rights.white_kingside && !mov.losing_castle_rights.white_kingside }
  let board := move_piece board mov.from_ mov.to_
  { g with
    board := board
    fullmove_number := fullmove_number
    halfmove_clock := mov.halfmove_clock
    en_passant_target_square := mov.en_passant_target_square
    castling_rights := castling_rights
    moves := mov :: g.moves
    turn := g.turn.invert }

/-- The value `unmake_move` restores the half-move clock from. -/
def histClock : List Move → Nat
  | [] => 0
  | mv :: _ => mv.halfmove_clock

/-- The value `unmake_move` restores the en-passant target from. -/
def histEp : List Move → Option Square
  | [] => none
  | lm :: _ => lm.en_passant_target_square

/-- `Game::unmake_move`.  As in `make_move`, the promotion reset writes
through a copy and leaves the board unchanged. -/
def Game.unmake_move (g : Game) : Game × Bool :=
  match g.moves with
  | [] => (g, false)
  | mov :: rest =>
    let turn := g.turn.invert
    let board := move_piece g.board mov.to_ mov.from_
    let fullmove_number :=
      if turn = Color.Black then g.fullmove_number - 1 else g.fullmove_number
    let halfmove_clock := histClock rest
    let en_passant_target_square := histEp rest
    let board :=
      match mov.en_passant_capture with
      | some c => boardSet board c (some { piece_type := PieceType.Pawn, color := turn.invert })
      | none =>
        match mov.capture with
        | some c => boardSet board mov.to_ (some { piece_type := c, color := turn.invert })
        | none => board
    let board :=
      match mov.castle with
      | some .BlackKingside => move_piece board (0, 5) (0, 7)
      | some .BlackQueenside => move_piece board (0, 3) (0, 0)
      | some .WhiteKingside => move_piece board (7, 5) (7, 7)
      | some .WhiteQueenside => move_piece board (7, 3) (7, 0)
      | none => board
    let castling_rights : CastlingRights :=
      { black_queenside := g.castling_rights.black_queenside || mov.losing_castle_rights.black_queenside
        black_kingside := g.castling_rights.black_kingside || mov.losing_castle_rights.black_kingside
        white_queenside := g.castling_rights.white_queenside || mov.losing_castle_rights.white_queenside
        white_kingside := g.castling_rights.white_kingside || mov.losing_castle_rights.white_kingside }
    ({ g with
        moves := rest
        turn := turn
        board := board
        fullmove_number := fullmove_number
        halfmove_clock := halfmove_clock
        en_passant_target_square := en_passant_target_square
        castling_rights := castling_rights }, true)

/-- The 8 board rows, each a list of its 8 squares, in the order
`compute_legal_moves`'s nested loops visit them. -/
def squareRows : List (List Square) :=
  (List.range 8).map fun r => (List.range 8).map fun c => (Int.ofNat r, Int.ofNat c)

/-- The row-major list of the 64 board squares. -/
def allSquares : List Square :=
  squareRows.flatMap id

/-- `Game::any_king_captures`: scan the whole cached table for a move
capturing a King. -/
def Game.any_king_captures (g : Game) : Bool :=
  allSquares.any fun sq =>
    (tableGet g.legal_moves sq).any fun mv2 => mv2.capture = some PieceType.King

/-- The pseudo-legal table of a position: the per-square map of
`compute_legal_moves_on_square`. -/
def shallowTable (g : Game) : MoveTable :=
  squareRows.map fun row => row.map g.compute_legal_moves_on_square

/-- `compute_legal_moves(false)`: with validation off the loop body never
touches the game state, so the recomputation just installs the pseudo-legal
table. -/
def Game.computeShallow (g : Game) : Game :=
  { g with legal_moves := shallowTable g }

/-- `Game::validate_move`: apply the candidate, recompute the (shallow,
pseudo-legal) table for the new side to move, look for a King capture,
undo, and recompute the shallow table again.  Returns the threaded state
and the verdict. -/
def Game.validate_move (g : Game) (mov : Move) : Game × Bool :=
  let g1 := g.make_move mov
  let g2 := g1.computeShallow
  let caps := g2.any_king_captures
  let g3 := g2.unmake_move.1
  let g4 := g3.computeShallow
  (g4, !caps)

/-- `Vec::retain(|m| self.validate_move(m))`: in order, keep the moves the
(state-threading) validator accepts. -/
def Game.retainValidate (g : Game) : List Move → Game × List Move
  | [] => (g, [])
  | m :: rest =>
    let gk := g.validate_move m
    let grest := gk.1.retainValidate rest
    (grest.1, if gk.2 then m :: grest.2 else grest.2)

/-- One row of `compute_legal_moves`'s nested loops with validation on,
threading the (probe-mutated) game state and collecting each square's
retained list. -/
def Game.computeValidatedRow (g : Game) : List Square → Game × List (List Move)
  | [] => (g, [])
  | sq :: sqs =>
    let square_legal_moves := g.compute_legal_moves_on_square sq
    let gk := g.retainValidate square_legal_moves
    let grest := gk.1.computeValidatedRow sqs
    (grest.1, gk.2 :: grest.2)

/-- All rows of the validated recomputation. -/
def Game.computeValidatedRows (g : Game) : List (List Square) → Game × MoveTable
  | [] => (g, [])
  | row :: rows =>
    let gr := g.computeValidatedRow row
    let grest := gr.1.computeValidatedRows rows
    (grest.1, gr.2 :: grest.2)

/-- `Game::compute_legal_moves`: recompute every square's list (retaining
only validated moves when `validate_king_moves` is set) and install the new
table.  The timing and printing side effects of the Rust code are
omitted. -/
def Game.compute_legal_moves (g : Game) (validate_king_moves : Bool) : Game :=
  if validate_king_moves then
    let gcells := g.computeValidatedRows squareRows
    { gcells.1 with legal_moves := gcells.2 }
  else g.computeShallow

/-- `Game::request_move`: look up the cached list for `from` (panicking on
an out-of-range coordinate, modelled by `none`), commit the first entry
with the requested destination, else fail leaving the state unchanged. -/
def Game.request_move (g : Game) (from_ to_ : Square) : Option (Game × Bool) :=
  match g.legal_moves_on_square from_ with
  | none => none
  | some list =>
    match list.find? fun mov => mov.to_ = to_ with
    | some mov => some ((g.make_move mov).compute_legal_moves true, true)
    | none => some (g, false)

/-- `Game::unmake_move_and_recalculate`. -/
def Game.unmake_move_and_recalculate (g : Game) : Game :=
  (g.unmake_move.1).compute_legal_moves true

/-- `INITIAL_ROW`. -/
def INITIAL_ROW : List PieceType :=
  [.Rook, .Knight, .Bishop, .Queen, .King, .Bishop, .Knight, .Rook]

/-- The board of `Default for Game` before any move computation. -/
def initialBoard : Board :=
  [INITIAL_ROW.map fun pt => some { piece_type := pt, color := Color.Black },
   List.replicate 8 (some { piece_type := PieceType.Pawn, color := Color.Black }),
   List.replicate 8 none,
   List.replicate 8 none,
   List.replicate 8 none,
   List.replicate 8 none,
   List.replicate 8 (some { piece_type := PieceType.Pawn, color := Color.White }),
   INITIAL_ROW.map fun pt => some { piece_type := pt, color := Color.White }]

/-- The `Game` value of `Default for Game` before `compute_legal_moves`. -/
def initialGame : Game :=
  { board := initialBoard
    turn := Color.White
    castling_rights := CastlingRights.defaultRights
    en_passant_target_square := none
    halfmove_clock := 0
    fullmove_number := 0
    moves := []
    legal_moves := List.replicate 8 (List.replicate 8 []) }

/-- `Default for Game`: the standard starting position with its legal-move
table computed. -/
def defaultGame : Game :=
  initialGame.compute_legal_moves true



/-! ## Reachability and statement-level predicates -/

/-- The positions reachable from the freshly constructed game through the
public operations `request_move` and `unmake_move_and_recalculate`. -/
inductive Reachable : Game → Prop
  | start : Reachable defaultGame
  | move {g g' : Game} {from_ to_ : Square} {b : Bool} :
      Reachable g → g.request_move from_ to_ = some (g', b) → Reachable g'
  | undo {g : Game} : Reachable g → Reachable g.unmake_move_and_recalculate

/-- Both coordinates in `[0, 8)`. -/
def validSq (sq : Square) : Prop :=
  0 ≤ sq.1 ∧ sq.1 < 8 ∧ 0 ≤ sq.2 ∧ sq.2 < 8

instance (sq : Square) : Decidable (validSq sq) := by
  unfold validSq; infer_instance

/-- After applying `m`, some pseudo-legal move of the (new) side to move
captures a King: the condition `validate_move` probes for. -/
def KingCapturableAfter (g : Game) (m : Move) : Prop :=
  ∃ sq ∈ allSquares, ∃ m' ∈ (g.make_move m).compute_legal_moves_on_square sq,
    m'.capture = some PieceType.King

instance (g : Game) (m : Move) : Decidable (KingCapturableAfter g m) := by
  unfold KingCapturableAfter; infer_instance

/-- Total number of cached moves over all 64 squares. -/
def totalCachedMoves (g : Game) : Nat :=
  (allSquares.map fun sq => (tableGet g.legal_moves sq).length).sum

/-- An 8×8 board: 8 rows of length 8. -/
def BoardWF (b : Board) : Prop :=
  b.length = 8 ∧ ∀ i < 8, (b.getD i []).length = 8

instance (b : Board) : Decidable (BoardWF b) := by
  unfold BoardWF; infer_instance

/-- The home corner square of the rook a castling variant relocates. -/
def castleCorner : Castling → Square
  | .BlackKingside => (0, 7)
  | .BlackQueenside => (0, 0)
  | .WhiteKingside => (7, 7)
  | .WhiteQueenside => (7, 0)

/-- The square that rook is relocated to. -/
def castleMid : Castling → Square
  | .BlackKingside => (0, 5)
  | .BlackQueenside => (0, 3)
  | .WhiteKingside => (7, 5)
  | .WhiteQueenside => (7, 3)

/-- Pointwise Boolean inclusion of castling rights. -/
def rightsSub (a b : CastlingRights) : Prop :=
  (a.white_queenside = true → b.white_queenside = true) ∧
  (a.white_kingside = true → b.white_kingside = true) ∧
  (a.black_queenside = true → b.black_queenside = true) ∧
  (a.black_kingside = true → b.black_kingside = true)

instance (a b : CastlingRights) : Decidable (rightsSub a b) := by
  unfold rightsSub; infer_instance

/-- The capture/en-passant part of `MoveOk`: the recorded capture data
agrees with what actually stands on the board. -/
def captureCoherentB (g : Game) (m : Move) : Bool :=
  match m.en_passant_capture with
  | some c =>
    m.capture = some PieceType.Pawn && validSq c && c ≠ m.from_ && c ≠ m.to_ &&
    boardGet g.board m.to_ = none &&
    boardGet g.board c = some { piece_type := PieceType.Pawn, color := g.turn.invert } &&
    m.castle = none
  | none =>
    match m.capture with
    | some k =>
      boardGet g.board m.to_ = some { piece_type := k, color := g.turn.invert }
    | none => boardGet g.board m.to_ = none

/-- The castling part of `MoveOk`: the rook's transit square is empty and
the four squares touched by the move are suitably distinct. -/
def castleCoherentB (g : Game) (m : Move) : Bool :=
  match m.castle with
  | none => true
  | some c =>
    m.capture = none && m.en_passant_capture = none &&
    boardGet g.board (castleMid c) = none &&
    m.from_ ≠ castleCorner c && m.from_ ≠ castleMid c &&
    m.to_ ≠ castleCorner c && m.to_ ≠ castleMid c

/-- Coherence of a move's recorded data with the position `g`: the
preconditions under which `make_move` followed by `unmake_move` restores the
position bit for bit.  Moves generated by `compute_legal_moves_on_square`
from the *current* board satisfy all of it except possibly the en-passant
pawn's presence and the castle transit conditions (which generation does
not check against the board). -/
def MoveOk (g : Game) (m : Move) : Prop :=
  (validSq m.from_ && validSq m.to_ && m.from_ ≠ m.to_ &&
   (boardGet g.board m.from_).map Piece.color = some g.turn &&
   captureCoherentB g m &&
   rightsSub m.losing_castle_rights g.castling_rights &&
   castleCoherentB g m) = true

instance (g : Game) (m : Move) : Decidable (MoveOk g m) := by
  unfold MoveOk; infer_instance

/-- The half-move clock agrees with the most recent history entry
(0 when the history is empty): an invariant of reachable states that
`unmake_move` relies on to restore the clock. -/
def ClockCoherent (g : Game) : Prop :=
  g.halfmove_clock = histClock g.moves

/-- The en-passant target agrees with the most recent history entry
(`none` when the history is empty). -/
def EpCoherent (g : Game) : Prop :=
  g.en_passant_target_square = histEp g.moves
/-! ## Board algebra -/

theorem boardWF_set {b : Board} {s : Square} {v : Option Piece} (h : BoardWF b) :
    BoardWF (boardSet b s v) := by
  obtain ⟨hlen, hrows⟩ := h
  refine ⟨by simp [boardSet, hlen], ?_⟩
  intro i hi
  unfold boardSet
  rw [List.getD_eq_getElem?_getD]
  by_cases his : i = s.1.toNat
  · subst his
    rw [List.getElem?_set_self (by omega)]
    simpa using hrows _ hi
  · rw [List.getElem?_set_ne (by omega), ← List.getD_eq_getElem?_getD]
    exact hrows i hi

theorem bget_bset_eq {b : Board} {s : Square} {v : Option Piece}
    (h : BoardWF b) (hs : validSq s) : boardGet (boardSet b s v) s = v := by
  obtain ⟨hlen, hrows⟩ := h
  obtain ⟨h1, h2, h3, h4⟩ := hs
  unfold boardGet boardSet
  rw [List.getD_eq_getElem?_getD, List.getD_eq_getElem?_getD,
    List.getElem?_set_self (by omega)]
  simp only [Option.getD_some]
  rw [List.getElem?_set_self (by rw [hrows s.1.toNat (by omega)]; omega)]
  rfl

theorem bget_bset_ne {b : Board} {s s' : Square} {v : Option Piece}
    (h : BoardWF b) (hs : validSq s) (hs' : validSq s') (hne : s ≠ s') :
    boardGet (boardSet b s v) s' = boardGet b s' := by
  obtain ⟨hlen, hrows⟩ := h
  obtain ⟨h1, h2, h3, h4⟩ := hs
  obtain ⟨h1', h2', h3', h4'⟩ := hs'
  unfold boardGet boardSet
  by_cases hrr : s'.1.toNat = s.1.toNat
  · have hc : s'.2.toNat ≠ s.2.toNat := by
      intro hceq
      exact hne (by rw [Prod.ext_iff]; omega)
    rw [List.getD_eq_getElem?_getD, List.getD_eq_getElem?_getD, hrr,
      List.getElem?_set_self (by omega)]
    simp only [Option.getD_some]
    rw [List.getElem?_set_ne (by omega)]
    rw [List.getD_eq_getElem?_getD, List.getD_eq_getElem?_getD]
  · rw [List.getD_eq_getElem?_getD, List.getD_eq_getElem?_getD,
      List.getElem?_set_ne (by omega)]
    rw [List.getD_eq_getElem?_getD, List.getD_eq_getElem?_getD]

theorem board_ext {b b' : Board} (hb : BoardWF b) (hb' : BoardWF b')
    (h : ∀ s : Square, validSq s → boardGet b s = boardGet b' s) : b = b' := by
  obtain ⟨hlen, hrows⟩ := hb
  obtain ⟨hlen', hrows'⟩ := hb'
  apply List.ext_getElem?
  intro i
  by_cases hi : i < 8
  · have hib : i < b.length := by omega
    have hib' : i < b'.length := by omega
    rw [List.getElem?_eq_getElem hib, List.getElem?_eq_getElem hib']
    congr 1
    apply List.ext_getElem?
    intro j
    by_cases hj : j < 8
    · have hrl : (b.getD i []).length = 8 := hrows i hi
      have hrl' : (b'.getD i []).length = 8 := hrows' i hi
      have hbi : b.getD i [] = b[i] := by
        rw [List.getD_eq_getElem?_getD, List.getElem?_eq_getElem hib]; rfl
      have hbi' : b'.getD i [] = b'[i] := by
        rw [List.getD_eq_getElem?_getD, List.getElem?_eq_getElem hib']; rfl
      have hjb : j < b[i].length := by rw [← hbi]; omega
      have hjb' : j < b'[i].length := by rw [← hbi']; omega
      rw [List.getElem?_eq_getElem hjb, List.getElem?_eq_getElem hjb']
      have := h ((i : Int), (j : Int)) (by refine ⟨by omega, by omega, by omega, by omega⟩)
      unfold boardGet at this
      simp only [Int.toNat_natCast] at this
      rw [hbi, hbi'] at this
      rw [List.getD_eq_getElem?_getD, List.getD_eq_getElem?_getD,
        List.getElem?_eq_getElem hjb, List.getElem?_eq_getElem hjb'] at this
      simpa using this
    · have hrl : (b.getD i []).length = 8 := hrows i hi
      have hrl' : (b'.getD i []).length = 8 := hrows' i hi
      have hbi : b.getD i [] = b[i] := by
        rw [List.getD_eq_getElem?_getD, List.getElem?_eq_getElem hib]; rfl
      have hbi' : b'.getD i [] = b'[i] := by
        rw [List.getD_eq_getElem?_getD, List.getElem?_eq_getElem hib']; rfl
      rw [List.getElem?_eq_none (by rw [← hbi]; omega),
        List.getElem?_eq_none (by rw [← hbi']; omega)]
  · rw [List.getElem?_eq_none (by omega), List.getElem?_eq_none (by omega)]

theorem boardWF_move_piece {b : Board} {f t : Square} (h : BoardWF b) :
    BoardWF (move_piece b f t) :=
  boardWF_set (boardWF_set h)

theorem bget_move_piece {b : Board} {f t s : Square} (hb : BoardWF b)
    (hf : validSq f) (ht : validSq t) (hs : validSq s) :
    boardGet (move_piece b f t) s =
      if s = t then boardGet b f else if s = f then none else boardGet b s := by
  unfold move_piece
  by_cases hst : s = t
  · subst hst
    rw [if_pos rfl]
    exact bget_bset_eq (boardWF_set hb) hs
  · rw [if_neg hst, bget_bset_ne (boardWF_set hb) ht hs (by exact fun hh => hst hh.symm)]
    by_cases hsf : s = f
    · subst hsf
      rw [if_pos rfl]
      exact bget_bset_eq hb hs
    · rw [if_neg hsf, bget_bset_ne hb hf hs (by exact fun hh => hsf hh.symm)]

/-! ## The make/unmake round trip -/

theorem Color.invert_invert (c : Color) : c.invert.invert = c := by
  cases c <;> rfl

theorem castle_squares (c : Castling) :
    validSq (castleCorner c) ∧ validSq (castleMid c) ∧ castleCorner c ≠ castleMid c := by
  cases c <;> exact ⟨by decide, by decide, by decide⟩

theorem Game.ext_fields {g g' : Game}
    (h1 : g.board = g'.board) (h2 : g.turn = g'.turn)
    (h3 : g.castling_rights = g'.castling_rights)
    (h4 : g.en_passant_target_square = g'.en_passant_target_square)
    (h5 : g.halfmove_clock = g'.halfmove_clock)
    (h6 : g.fullmove_number = g'.fullmove_number)
    (h7 : g.moves = g'.moves) (h8 : g.legal_moves = g'.legal_moves) : g = g' := by
  cases g; cases g'; simp_all

theorem CastlingRights.rights_ext {a b : CastlingRights}
    (h1 : a.white_queenside = b.white_queenside) (h2 : a.white_kingside = b.white_kingside)
    (h3 : a.black_queenside = b.black_queenside) (h4 : a.black_kingside = b.black_kingside) :
    a = b := by
  cases a; cases b; simp_all


theorem board_rt_plain {b : Board} {f t : Square} (hwf : BoardWF b)
    (hvf : validSq f) (hvt : validSq t) (hft : f ≠ t)
    (hto : boardGet b t = none) :
    move_piece (move_piece b f t) t f = b := by
  have hwf1 : BoardWF (move_piece b f t) := boardWF_move_piece hwf
  apply board_ext (boardWF_move_piece hwf1) hwf
  intro s hs
  rw [bget_move_piece hwf1 hvt hvf hs]
  by_cases hsf : s = f
  · rw [if_pos hsf, bget_move_piece hwf hvf hvt hvt, if_pos rfl, hsf]
  · rw [if_neg hsf]
    by_cases hst : s = t
    · rw [if_pos hst, hst, hto]
    · rw [if_neg hst, bget_move_piece hwf hvf hvt hs, if_neg hst, if_neg hsf]

theorem board_rt_capture {b : Board} {f t : Square} {p : Piece} (hwf : BoardWF b)
    (hvf : validSq f) (hvt : validSq t) (hft : f ≠ t)
    (hto : boardGet b t = some p) :
    boardSet (move_piece (move_piece b f t) t f) t (some p) = b := by
  have hwf1 : BoardWF (move_piece b f t) := boardWF_move_piece hwf
  have hwf2 : BoardWF (move_piece (move_piece b f t) t f) := boardWF_move_piece hwf1
  apply board_ext (boardWF_set hwf2) hwf
  intro s hs
  by_cases hst : s = t
  · rw [hst, bget_bset_eq hwf2 hvt, hto]
  · rw [bget_bset_ne hwf2 hvt hs (fun hh => hst hh.symm),
      bget_move_piece hwf1 hvt hvf hs]
    by_cases hsf : s = f
    · rw [if_pos hsf, bget_move_piece hwf hvf hvt hvt, if_pos rfl, hsf]
    · rw [if_neg hsf, if_neg hst, bget_move_piece hwf hvf hvt hs, if_neg hst, if_neg hsf]

theorem board_rt_ep {b : Board} {f t c : Square} {pw : Piece} (hwf : BoardWF b)
    (hvf : validSq f) (hvt : validSq t) (hvc : validSq c) (hft : f ≠ t)
    (hcf : c ≠ f) (hct : c ≠ t)
    (hto : boardGet b t = none) (hc : boardGet b c = some pw) :
    boardSet (move_piece (move_piece (boardSet b c none) f t) t f) c (some pw) = b := by
  have hwf0 : BoardWF (boardSet b c none) := boardWF_set hwf
  have hwf1 : BoardWF (move_piece (boardSet b c none) f t) := boardWF_move_piece hwf0
  have hwf2 : BoardWF (move_piece (move_piece (boardSet b c none) f t) t f) :=
    boardWF_move_piece hwf1
  apply board_ext (boardWF_set hwf2) hwf
  intro s hs
  by_cases hsc : s = c
  · rw [hsc, bget_bset_eq hwf2 hvc, hc]
  · rw [bget_bset_ne hwf2 hvc hs (fun hh => hsc hh.symm),
      bget_move_piece hwf1 hvt hvf hs]
    by_cases hsf : s = f
    · rw [if_pos hsf, bget_move_piece hwf0 hvf hvt hvt, if_pos rfl,
        bget_bset_ne hwf hvc hvf hcf, hsf]
    · rw [if_neg hsf]
      by_cases hst : s = t
      · rw [if_pos hst, hst, hto]
      · rw [if_neg hst, bget_move_piece hwf0 hvf hvt hs, if_neg hst, if_neg hsf,
          bget_bset_ne hwf hvc hs (fun hh => hsc hh.symm)]

theorem board_rt_castle {b : Board} {f t cr md : Square} (hwf : BoardWF b)
    (hvf : validSq f) (hvt : validSq t) (hvcr : validSq cr) (hvmd : validSq md)
    (hft : f ≠ t) (hfcr : f ≠ cr) (hfmd : f ≠ md) (htcr : t ≠ cr) (htmd : t ≠ md)
    (hcrmd : cr ≠ md) (hmd : boardGet b md = none) (hto : boardGet b t = none) :
    move_piece (move_piece (move_piece (move_piece b cr md) f t) t f) md cr = b := by
  have hwf0 : BoardWF (move_piece b cr md) := boardWF_move_piece hwf
  have hwf1 : BoardWF (move_piece (move_piece b cr md) f t) := boardWF_move_piece hwf0
  have hwf2 : BoardWF (move_piece (move_piece (move_piece b cr md) f t) t f) :=
    boardWF_move_piece hwf1
  apply board_ext (boardWF_move_piece hwf2) hwf
  intro s hs
  rw [bget_move_piece hwf2 hvmd hvcr hs]
  by_cases hscr : s = cr
  · rw [if_pos hscr, bget_move_piece hwf1 hvt hvf hvmd,
      if_neg (fun hh => hfmd hh.symm), if_neg (fun hh => htmd hh.symm),
      bget_move_piece hwf0 hvf hvt hvmd,
      if_neg (fun hh => htmd hh.symm), if_neg (fun hh => hfmd hh.symm),
      bget_move_piece hwf hvcr hvmd hvmd, if_pos rfl, hscr]
  · rw [if_neg hscr]
    by_cases hsmd : s = md
    · rw [if_pos hsmd, hsmd, hmd]
    · rw [if_neg hsmd, bget_move_piece hwf1 hvt hvf hs]
      by_cases hsf : s = f
      · rw [if_pos hsf, bget_move_piece hwf0 hvf hvt hvt, if_pos rfl,
          bget_move_piece hwf hvcr hvmd hvf,
          if_neg hfmd, if_neg hfcr, hsf]
      · rw [if_neg hsf]
        by_cases hst : s = t
        · rw [if_pos hst, hst, hto]
        · rw [if_neg hst, bget_move_piece hwf0 hvf hvt hs, if_neg hst, if_neg hsf,
            bget_move_piece hwf hvcr hvmd hs, if_neg hsmd, if_neg hscr]

/-- `make_move` then `unmake_move` restores the game exactly (and reports
success), for any move whose recorded data is coherent with the position
(`MoveOk`), in a well-formed state whose clock and en-passant target agree
with its history. -/
theorem make_unmake {g : Game} {m : Move}
    (hwf : BoardWF g.board) (hck : ClockCoherent g) (hep : EpCoherent g)
    (hok : MoveOk g m) : (g.make_move m).unmake_move = (g, true) := by
  simp only [MoveOk, Bool.and_eq_true, decide_eq_true_eq] at hok
  obtain ⟨⟨⟨⟨⟨⟨hvf, hvt⟩, hft⟩, hfrom⟩, hcap⟩, hsub⟩, hcst⟩ := hok
  obtain ⟨s1, s2, s3, s4⟩ := hsub
  have hrights : ∀ gr lr : CastlingRights,
      (lr.white_queenside = true → gr.white_queenside = true) →
      (lr.white_kingside = true → gr.white_kingside = true) →
      (lr.black_queenside = true → gr.black_queenside = true) →
      (lr.black_kingside = true → gr.black_kingside = true) →
      ({ black_queenside := (gr.black_queenside && !lr.black_queenside) || lr.black_queenside
         black_kingside := (gr.black_kingside && !lr.black_kingside) || lr.black_kingside
         white_queenside := (gr.white_queenside && !lr.white_queenside) || lr.white_queenside
         white_kingside := (gr.white_kingside && !lr.white_kingside) || lr.white_kingside } :
        CastlingRights) = gr := by
    intro gr lr t1 t2 t3 t4
    apply CastlingRights.rights_ext
    · cases hd : lr.white_queenside
      · simp [hd]
      · simp [hd, t1 hd]
    · cases hd : lr.white_kingside
      · simp [hd]
      · simp [hd, t2 hd]
    · cases hd : lr.black_queenside
      · simp [hd]
      · simp [hd, t3 hd]
    · cases hd : lr.black_kingside
      · simp [hd]
      · simp [hd, t4 hd]
  have hfm : ∀ n : Nat,
      (if g.turn.invert.invert = Color.Black then
        (if g.turn = Color.Black then n + 1 else n) - 1
       else (if g.turn = Color.Black then n + 1 else n)) = n := by
    intro n
    rcases ht : g.turn <;> simp [Color.invert, ht]
  rcases hepc : m.en_passant_capture with _ | epc
  · rcases hcapm : m.capture with _ | k
    · simp only [captureCoherentB, hepc, hcapm, decide_eq_true_eq] at hcap
      rcases hcstm : m.castle with _ | cst
      · unfold Game.make_move Game.unmake_move
        simp only [hepc, hcapm, hcstm, Prod.mk.injEq]
        refine ⟨?_, trivial⟩
        apply Game.ext_fields
        case h2 => exact Color.invert_invert g.turn
        case h5 => exact hck.symm
        case h4 => exact hep.symm
        case h6 => exact hfm g.fullmove_number
        case h7 => rfl
        case h8 => rfl
        case h3 => exact hrights g.castling_rights m.losing_castle_rights s1 s2 s3 s4
        case h1 => exact board_rt_plain hwf hvf hvt hft hcap
      · simp only [castleCoherentB, hcstm, Bool.and_eq_true, decide_eq_true_eq] at hcst
        obtain ⟨⟨⟨⟨⟨⟨hcc, hce⟩, hmd⟩, hfcr⟩, hfmd⟩, htcr⟩, htmd⟩ := hcst
        obtain ⟨hvcr, hvmd, hcrmd⟩ := castle_squares cst
        unfold Game.make_move Game.unmake_move
        simp only [hepc, hcapm, hcstm, Prod.mk.injEq]
        refine ⟨?_, trivial⟩
        cases cst <;> {
          apply Game.ext_fields
          case h2 => exact Color.invert_invert g.turn
          case h5 => exact hck.symm
          case h4 => exact hep.symm
          case h6 => exact hfm g.fullmove_number
          case h7 => rfl
          case h8 => rfl
          case h3 => exact hrights g.castling_rights m.losing_castle_rights s1 s2 s3 s4
          case h1 =>
            exact board_rt_castle hwf hvf hvt (by decide) (by decide) hft
              (by simpa [castleCorner] using hfcr) (by simpa [castleMid] using hfmd)
              (by simpa [castleCorner] using htcr) (by simpa [castleMid] using htmd)
              (by decide) (by simpa [castleMid] using hmd) hcap
        }
    · rcases hcstm : m.castle with _ | cst
      · simp only [captureCoherentB, hepc, hcapm, decide_eq_true_eq] at hcap
        unfold Game.make_move Game.unmake_move
        simp only [hepc, hcapm, hcstm, Prod.mk.injEq]
        refine ⟨?_, trivial⟩
        apply Game.ext_fields
        case h2 => exact Color.invert_invert g.turn
        case h5 => exact hck.symm
        case h4 => exact hep.symm
        case h6 => exact hfm g.fullmove_number
        case h7 => rfl
        case h8 => rfl
        case h3 => exact hrights g.castling_rights m.losing_castle_rights s1 s2 s3 s4
        case h1 =>
          simp only [Color.invert_invert]
          exact board_rt_capture hwf hvf hvt hft hcap
      · simp only [castleCoherentB, hcstm, Bool.and_eq_true, decide_eq_true_eq] at hcst
        simp [hcapm] at hcst
  · simp only [captureCoherentB, hepc, Bool.and_eq_true, decide_eq_true_eq] at hcap
    obtain ⟨⟨⟨⟨⟨⟨hcpw, hvc⟩, hcf⟩, hct⟩, hto⟩, hcsq⟩, hcnone⟩ := hcap
    unfold Game.make_move Game.unmake_move
    simp only [hepc, hcnone, Prod.mk.injEq]
    refine ⟨?_, trivial⟩
    apply Game.ext_fields
    case h2 => exact Color.invert_invert g.turn
    case h5 => exact hck.symm
    case h4 => exact hep.symm
    case h6 => exact hfm g.fullmove_number
    case h7 => rfl
    case h8 => rfl
    case h3 => exact hrights g.castling_rights m.losing_castle_rights s1 s2 s3 s4
    case h1 =>
      simp only [Color.invert_invert]
      exact board_rt_ep hwf hvf hvt hvc hft hcf hct hto hcsq

/-! ## Collapsing the validated recomputation on coherent positions -/

/-- The Boolean the legality filter probes: after applying `m`, some
pseudo-legal reply captures a King. -/
def leavesKingCapturable (g : Game) (m : Move) : Bool :=
  ((g.make_move m).computeShallow).any_king_captures

/-- The fully validated table recomputed *from the position `g` itself*:
per square, the pseudo-legal moves that do not leave the mover's king
capturable. -/
def validTable (g : Game) : MoveTable :=
  squareRows.map fun row => row.map fun sq =>
    (g.compute_legal_moves_on_square sq).filter fun m => !leavesKingCapturable g m

theorem unmake_update (k : Game) (Y : MoveTable) :
    ({ k with legal_moves := Y } : Game).unmake_move
      = ({ k.unmake_move.1 with legal_moves := Y }, k.unmake_move.2) := by
  unfold Game.unmake_move
  rcases hm : k.moves with _ | ⟨mov, rest⟩ <;> simp only [hm]

theorem validate_from_update (h : Game) (X : MoveTable) (m : Move)
    (hwf : BoardWF h.board) (hck : ClockCoherent h) (hep : EpCoherent h)
    (hmok : MoveOk h m) :
    ({ h with legal_moves := X } : Game).validate_move m
      = ({ h with legal_moves := shallowTable h }, !leavesKingCapturable h m) := by
  have hmu : (h.make_move m).unmake_move = (h, true) := make_unmake hwf hck hep hmok
  have eSh : (({ h with legal_moves := X } : Game).make_move m).computeShallow
      = { h.make_move m with legal_moves := shallowTable (h.make_move m) } := rfl
  unfold Game.validate_move
  simp only [eSh, unmake_update, hmu]
  rfl

theorem retain_from_update (h : Game) (hwf : BoardWF h.board) (hck : ClockCoherent h)
    (hep : EpCoherent h) :
    ∀ (ms : List Move) (X : MoveTable), (∀ m ∈ ms, MoveOk h m) →
    ∃ Y, ({ h with legal_moves := X } : Game).retainValidate ms
      = ({ h with legal_moves := Y }, ms.filter fun m => !leavesKingCapturable h m) := by
  intro ms
  induction ms with
  | nil =>
    intro X hall
    exact ⟨X, by simp [Game.retainValidate]⟩
  | cons m rest ih =>
    intro X hall
    obtain ⟨Y, e⟩ := ih (shallowTable h) (fun m' hm' => hall m' (by simp [hm']))
    refine ⟨Y, ?_⟩
    simp only [Game.retainValidate]
    rw [validate_from_update h X m hwf hck hep (hall m (by simp))]
    rw [e]
    cases hb : leavesKingCapturable h m <;> simp [hb, List.filter_cons]

theorem row_from_update (h : Game) (hwf : BoardWF h.board) (hck : ClockCoherent h)
    (hep : EpCoherent h) :
    ∀ (sqs : List Square) (X : MoveTable),
    (∀ sq ∈ sqs, ∀ m ∈ h.compute_legal_moves_on_square sq, MoveOk h m) →
    ∃ Y, ({ h with legal_moves := X } : Game).computeValidatedRow sqs
      = ({ h with legal_moves := Y },
         sqs.map fun sq =>
           (h.compute_legal_moves_on_square sq).filter fun m => !leavesKingCapturable h m) := by
  intro sqs
  induction sqs with
  | nil =>
    intro X hall
    exact ⟨X, by simp [Game.computeValidatedRow]⟩
  | cons sq sqs ih =>
    intro X hall
    obtain ⟨Y1, e1⟩ := retain_from_update h hwf hck hep
      (h.compute_legal_moves_on_square sq) X (fun m hm => hall sq (by simp) m hm)
    obtain ⟨Y2, e2⟩ := ih Y1 (fun sq' hsq' => hall sq' (by simp [hsq']))
    refine ⟨Y2, ?_⟩
    simp only [Game.computeValidatedRow]
    rw [show ({ h with legal_moves := X } : Game).retainValidate
          (({ h with legal_moves := X } : Game).compute_legal_moves_on_square sq)
        = ({ h with legal_moves := Y1 },
           (h.compute_legal_moves_on_square sq).filter fun m => !leavesKingCapturable h m)
      from e1]
    rw [e2]
    simp

theorem rows_from_update (h : Game) (hwf : BoardWF h.board) (hck : ClockCoherent h)
    (hep : EpCoherent h) :
    ∀ (rows : List (List Square)) (X : MoveTable),
    (∀ row ∈ rows, ∀ sq ∈ row, ∀ m ∈ h.compute_legal_moves_on_square sq, MoveOk h m) →
    ∃ Y, ({ h with legal_moves := X } : Game).computeValidatedRows rows
      = ({ h with legal_moves := Y },
         rows.map fun row => row.map fun sq =>
           (h.compute_legal_moves_on_square sq).filter fun m => !leavesKingCapturable h m) := by
  intro rows
  induction rows with
  | nil =>
    intro X hall
    exact ⟨X, by simp [Game.computeValidatedRows]⟩
  | cons row rows ih =>
    intro X hall
    obtain ⟨Y1, e1⟩ := row_from_update h hwf hck hep row X
      (fun sq hsq m hm => hall row (by simp) sq hsq m hm)
    obtain ⟨Y2, e2⟩ := ih Y1 (fun row' hrow' => hall row' (by simp [hrow']))
    refine ⟨Y2, ?_⟩
    simp only [Game.computeValidatedRows]
    rw [e1, e2]
    simp

/-- On a position all of whose pseudo-legal candidates are coherent
(`MoveOk`), the validated recomputation collapses to the pure filter
`validTable` of the position itself: the probing does not corrupt the
state, and every retained move was validated against this very position. -/
theorem compute_true_clean (h : Game) (hwf : BoardWF h.board) (hck : ClockCoherent h)
    (hep : EpCoherent h)
    (hclean : ∀ sq m, m ∈ h.compute_legal_moves_on_square sq → MoveOk h m) :
    h.compute_legal_moves true = { h with legal_moves := validTable h } := by
  obtain ⟨Y, e⟩ := rows_from_update h hwf hck hep squareRows h.legal_moves
    (fun row hrow sq hsq m hm => hclean sq m hm)
  unfold Game.compute_legal_moves
  simp only [if_true]
  rw [show h.computeValidatedRows squareRows
      = ({ h with legal_moves := Y },
         squareRows.map fun row => row.map fun sq =>
           (h.compute_legal_moves_on_square sq).filter fun m => !leavesKingCapturable h m)
    from e]
  rfl

/-! ## Shape facts about generated moves -/

/-- Pawn advance direction of a side. -/
def dirOf : Color → Int
  | .Black => 1
  | .White => -1

/-- Shape of a move's en-passant-target stamp, relative to its mover `c`:
only a two-square pawn advance from the mover's starting rank stamps a
target, the square passed over. -/
def MoveShape (c : Color) (m : Move) : Prop :=
  ∀ t, m.en_passant_target_square = some t →
    t = (m.from_.1 + dirOf c, m.from_.2) ∧
    m.to_ = (m.from_.1 + dirOf c * 2, m.from_.2) ∧
    ((c = Color.White ∧ m.from_.1 = 6) ∨ (c = Color.Black ∧ m.from_.1 = 1))

/-- The facts every move produced by `compute_legal_moves_on_square` on a
position `G` satisfies. -/
def GenInv (G : Game) (m : Move) : Prop :=
  (∀ c, m.en_passant_capture = some c →
    G.en_passant_target_square = some m.to_ ∧ m.capture = some PieceType.Pawn ∧
    m.en_passant_target_square = none ∧ m.castle = none) ∧
  MoveShape G.turn m ∧
  rightsSub m.losing_castle_rights G.castling_rights ∧
  (∀ cs, m.castle = some cs →
    ((cs = Castling.WhiteKingside ∨ cs = Castling.BlackKingside) →
      m.halfmove_clock = G.halfmove_clock + 1) ∧
    ((cs = Castling.WhiteQueenside ∨ cs = Castling.BlackQueenside) →
      m.halfmove_clock = 0))

theorem rightsSub_noRights (r : CastlingRights) : rightsSub CastlingRights.noRights r := by
  refine ⟨?_, ?_, ?_, ?_⟩ <;> intro h <;> simp [CastlingRights.noRights] at h

theorem generic_move_shape {G : Game} {f t : Square} {m : Move}
    (h : G.generic_move f t = some m) :
    m.en_passant_capture = none ∧ m.en_passant_target_square = none ∧
    m.castle = none ∧ m.losing_castle_rights = CastlingRights.noRights ∧
    m.from_ = f ∧ m.to_ = t := by
  unfold Game.generic_move at h
  rcases hv : is_valid_square t with _ | s
  · simp [hv] at h
  simp only [hv] at h
  rcases hp : G.piece_at_square f with _ | p
  · simp [hp] at h
  simp only [hp] at h
  rcases hq : G.piece_at_square t with _ | q
  · simp only [hq, Option.some.injEq] at h
    rw [← h]
    exact ⟨rfl, rfl, rfl, rfl, rfl, rfl⟩
  · simp only [hq] at h
    by_cases hc : q.color ≠ p.color
    · rw [if_pos hc] at h
      simp only [Option.some.injEq] at h
      rw [← h]
      exact ⟨rfl, rfl, rfl, rfl, rfl, rfl⟩
    · rw [if_neg hc] at h
      simp at h

theorem generic_move_geninv {G : Game} {f t : Square} {m : Move}
    (h : G.generic_move f t = some m) : GenInv G m := by
  obtain ⟨h1, h2, h3, h4, _, _⟩ := generic_move_shape h
  refine ⟨?_, ?_, ?_, ?_⟩
  · intro c hc; rw [h1] at hc; cases hc
  · intro u hu; rw [h2] at hu; cases hu
  · rw [h4]; exact rightsSub_noRights _
  · intro cs hcs; rw [h3] at hcs; cases hcs

theorem stampRookRights_geninv {G : Game} {col : Color} {r c : Int} {m : Move}
    (h : GenInv G m) (hnr : m.losing_castle_rights = CastlingRights.noRights) :
    GenInv G (stampRookRights G col r c m) := by
  obtain ⟨h1, h2, h3, h4⟩ := h
  cases col <;> unfold stampRookRights <;> split_ifs <;>
    first
      | exact ⟨h1, h2, h3, h4⟩
      | · refine ⟨h1, h2, ?_, h4⟩
          rw [hnr]
          refine ⟨?_, ?_, ?_, ?_⟩ <;> intro hh <;> simp_all [CastlingRights.noRights]

theorem rayGo_geninv {G : Game} {square : Square} {col : Color} {rook : Bool}
    {dir : Int × Int} {m : Move} :
    ∀ {fuel : Nat} {offset : Int × Int},
    m ∈ rayGo G square col rook dir fuel offset → GenInv G m := by
  intro fuel
  induction fuel with
  | zero => intro offset h; simp [rayGo] at h
  | succ n ih =>
    intro offset h
    unfold rayGo at h
    rcases hg : G.generic_move square (square.1 + offset.1, square.2 + offset.2)
      with _ | m0
    · simp [hg] at h
    simp only [hg] at h
    have hm1inv : GenInv G (if rook = true then stampRookRights G col square.1 square.2 m0 else m0) := by
      by_cases hrk : rook = true
      · rw [if_pos hrk]
        exact stampRookRights_geninv (generic_move_geninv hg)
          (generic_move_shape hg).2.2.2.1
      · rw [if_neg hrk]; exact generic_move_geninv hg
    set m1 := if rook = true then stampRookRights G col square.1 square.2 m0 else m0 with hm1
    by_cases hcap : m1.capture.isSome
    · rw [if_pos hcap] at h
      simp only [List.mem_singleton] at h
      subst h; exact hm1inv
    · rw [if_neg hcap] at h
      rcases List.mem_cons.mp h with heq | htail
      · subst heq; exact hm1inv
      · exact ih htail

theorem pawnMoves_geninv {G : Game} {square : Square} {m : Move}
    (h : m ∈ pawnMoves G square G.turn) : GenInv G m := by
  unfold pawnMoves at h
  simp only [List.mem_flatMap] at h
  obtain ⟨mv, hmv, hex⟩ := h
  have hup : GenInv G mv → GenInv G m := by
    intro hinv
    by_cases hp : (square.1 + (match G.turn with | Color.Black => 1 | Color.White => -1)) = 7 ∨
        (square.1 + (match G.turn with | Color.Black => 1 | Color.White => -1)) = 0
    · rw [if_pos hp] at hex
      obtain ⟨e1, e2, e3, e4⟩ := hinv
      simp only [List.mem_cons, List.not_mem_nil, or_false] at hex
      rcases hex with rfl | rfl
      · exact ⟨e1, e2, e3, e4⟩
      · exact ⟨e1, e2, e3, e4⟩
    · rw [if_neg hp] at hex
      simp only [List.mem_singleton] at hex
      subst hex; exact hinv
  apply hup
  rcases List.mem_append.mp hmv with hc | hf
  · simp only [List.mem_filterMap] at hc
    obtain ⟨cd, hcdmem, hcd⟩ := hc
    rcases hv : is_valid_square
        (square.1 + (match G.turn with | Color.Black => 1 | Color.White => -1),
         square.2 + cd) with _ | cs
    · simp [hv] at hcd
    simp only [hv] at hcd
    rcases hq : G.piece_at_square cs with _ | q
    · simp only [hq] at hcd
      by_cases hep : some cs = G.en_passant_target_square
      · rw [if_pos hep] at hcd
        simp only [Option.some.injEq] at hcd
        subst hcd
        refine ⟨?_, ?_, ?_, ?_⟩
        · intro c hc
          exact ⟨hep.symm, rfl, rfl, rfl⟩
        · intro t ht; cases ht
        · exact rightsSub_noRights _
        · intro cs' hcs'; cases hcs'
      · rw [if_neg hep] at hcd; cases hcd
    · simp only [hq] at hcd
      by_cases hqc : q.color ≠ G.turn
      · rw [if_pos hqc] at hcd
        simp only [Option.some.injEq] at hcd
        subst hcd
        refine ⟨?_, ?_, ?_, ?_⟩
        · intro c hc; cases hc
        · intro t ht; cases ht
        · exact rightsSub_noRights _
        · intro cs' hcs'; cases hcs'
      · rw [if_neg hqc] at hcd; cases hcd
  · by_cases h1 : (G.piece_at_square
        (square.1 + (match G.turn with | Color.Black => 1 | Color.White => -1),
         square.2)).isNone
    · rw [if_pos h1] at hf
      by_cases h2 : (square.1 = 6 ∧ G.turn = Color.White) ∨ (square.1 = 1 ∧ G.turn = Color.Black)
      · rw [if_pos h2] at hf
        by_cases h3 : (G.piece_at_square
            (square.1 + (match G.turn with | Color.Black => 1 | Color.White => -1) * 2,
             square.2)).isNone
        · rw [if_pos h3] at hf
          simp only [List.mem_cons, List.not_mem_nil, or_false] at hf
          rcases hf with rfl | rfl
          · refine ⟨?_, ?_, ?_, ?_⟩
            · intro c hc; cases hc
            · intro t ht; cases ht
            · exact rightsSub_noRights _
            · intro cs' hcs'; cases hcs'
          · refine ⟨?_, ?_, ?_, ?_⟩
            · intro c hc; cases hc
            · intro t ht
              simp only [Option.some.injEq] at ht
              subst ht
              refine ⟨?_, ?_, ?_⟩
              · rcases hturn : G.turn <;> simp [dirOf]
              · rcases hturn : G.turn <;> simp [dirOf]
              · rcases h2 with ⟨hr, hw⟩ | ⟨hr, hb⟩
                · exact Or.inl ⟨hw, hr⟩
                · exact Or.inr ⟨hb, hr⟩
            · exact rightsSub_noRights _
            · intro cs' hcs'; cases hcs' 
        · rw [if_neg h3] at hf
          simp only [List.mem_singleton] at hf
          subst hf
          refine ⟨?_, ?_, ?_, ?_⟩
          · intro c hc; cases hc
          · intro t ht; cases ht
          · exact rightsSub_noRights _
          · intro cs' hcs'; cases hcs'
      · rw [if_neg h2] at hf
        simp only [List.mem_singleton] at hf
        subst hf
        refine ⟨?_, ?_, ?_, ?_⟩
        · intro c hc; cases hc
        · intro t ht; cases ht
        · exact rightsSub_noRights _
        · intro cs' hcs'; cases hcs'
    · rw [if_neg h1] at hf
      simp at hf

theorem kingMoves_geninv {G : Game} {square : Square} {m : Move}
    (h : m ∈ kingMoves G square G.turn) : GenInv G m := by
  unfold kingMoves at h
  simp only [List.mem_append] at h
  rcases h with (hgen | hks) | hqs
  · simp only [List.mem_filterMap] at hgen
    obtain ⟨mv, _, hg⟩ := hgen
    exact generic_move_geninv hg
  · by_cases hck : (match G.turn with
        | Color.Black => G.castling_rights.black_kingside
        | Color.White => G.castling_rights.white_kingside) = true
    · rw [if_pos hck] at hks
      by_cases hbet : (G.piece_at_square (square.1, 5)).isNone = true ∧
          (G.piece_at_square (square.1, 6)).isNone = true
      · rw [if_pos hbet] at hks
        simp only [List.mem_singleton] at hks
        subst hks
        refine ⟨?_, ?_, ?_, ?_⟩
        · intro c hc; cases hc
        · intro t ht; cases ht
        · rcases hturn : G.turn <;>
            refine ⟨?_, ?_, ?_, ?_⟩ <;> intro hh <;>
              simp_all [CastlingRights.noRights]
        · intro cs' hcs'
          rcases hturn : G.turn <;> rw [hturn] at hcs' <;>
            simp only [Option.some.injEq] at hcs' <;> subst hcs' <;>
            exact ⟨fun _ => rfl, fun hq => by simp at hq⟩
      · rw [if_neg hbet] at hks; simp at hks
    · rw [if_neg hck] at hks; simp at hks
  · by_cases hcq : (match G.turn with
        | Color.Black => G.castling_rights.black_queenside
        | Color.White => G.castling_rights.white_queenside) = true
    · rw [if_pos hcq] at hqs
      by_cases hbet : (G.piece_at_square (square.1, 1)).isNone = true ∧
          (G.piece_at_square (square.1, 2)).isNone = true ∧
          (G.piece_at_square (square.1, 3)).isNone = true
      · rw [if_pos hbet] at hqs
        simp only [List.mem_singleton] at hqs
        subst hqs
        refine ⟨?_, ?_, ?_, ?_⟩
        · intro c hc; cases hc
        · intro t ht; cases ht
        · rcases hturn : G.turn <;>
            refine ⟨?_, ?_, ?_, ?_⟩ <;> intro hh <;>
              simp_all [CastlingRights.noRights]
        · intro cs' hcs'
          rcases hturn : G.turn <;> rw [hturn] at hcs' <;>
            simp only [Option.some.injEq] at hcs' <;> subst hcs' <;>
            exact ⟨fun hq => by simp at hq, fun _ => rfl⟩
      · rw [if_neg hbet] at hqs; simp at hqs
    · rw [if_neg hcq] at hqs; simp at hqs

theorem slidingMoves_geninv {G : Game} {square : Square} {pt : PieceType} {m : Move}
    (h : m ∈ slidingMoves G square G.turn pt) : GenInv G m := by
  unfold slidingMoves at h
  simp only [List.mem_append] at h
  rcases h with ho | hd
  · by_cases hc : pt = PieceType.Rook ∨ pt = PieceType.Queen
    · rw [if_pos hc] at ho
      unfold repeated_moves_on_direction at ho
      simp only [List.mem_flatMap] at ho
      obtain ⟨dir, _, hray⟩ := ho
      exact rayGo_geninv hray
    · rw [if_neg hc] at ho; simp at ho
  · by_cases hc : pt = PieceType.Bishop ∨ pt = PieceType.Queen
    · rw [if_pos hc] at hd
      unfold repeated_moves_on_direction at hd
      simp only [List.mem_flatMap] at hd
      obtain ⟨dir, _, hray⟩ := hd
      exact rayGo_geninv hray
    · rw [if_neg hc] at hd; simp at hd

/-- Master shape lemma: every pseudo-legal move generated on `G` satisfies
`GenInv G`. -/
theorem gen_geninv {G : Game} {sq : Square} {m : Move}
    (h : m ∈ G.compute_legal_moves_on_square sq) : GenInv G m := by
  unfold Game.compute_legal_moves_on_square at h
  rcases hp : G.piece_at_square sq with _ | p
  · simp [hp] at h
  simp only [hp] at h
  by_cases hc : p.color ≠ G.turn
  · rw [if_pos hc] at h; simp at h
  rw [if_neg hc] at h
  have hcol : p.color = G.turn := by
    by_contra hne; exact hc hne
  rcases hpt : p.piece_type with _ | _ | _ | _ | _ | _ <;> rw [hpt] at h <;> rw [hcol] at h
  · exact pawnMoves_geninv h
  · simp only [List.mem_filterMap] at h
    obtain ⟨mv, _, hg⟩ := h
    exact generic_move_geninv hg
  · exact slidingMoves_geninv h
  · exact slidingMoves_geninv h
  · exact slidingMoves_geninv h
  · exact kingMoves_geninv h

/-! ## Probes preserve everything but the board, on any state -/

theorem unmake_make_nonboard {g : Game} {m : Move}
    (hck : ClockCoherent g) (hep : EpCoherent g)
    (hsub : rightsSub m.losing_castle_rights g.castling_rights) :
    (g.make_move m).unmake_move
      = ({ g with board := (g.make_move m).unmake_move.1.board }, true) := by
  obtain ⟨s1, s2, s3, s4⟩ := hsub
  have hpair : (g.make_move m).unmake_move
      = ((g.make_move m).unmake_move.1, (g.make_move m).unmake_move.2) := rfl
  rw [hpair]
  have h2 : (g.make_move m).unmake_move.2 = true := by
    unfold Game.make_move Game.unmake_move
    rfl
  rw [h2]
  refine congrArg (fun z => (z, true)) ?_
  apply Game.ext_fields
  case h1 => rfl
  case h2 =>
    show ((g.make_move m).unmake_move.1).turn = g.turn
    unfold Game.make_move Game.unmake_move
    exact Color.invert_invert g.turn
  case h5 =>
    show ((g.make_move m).unmake_move.1).halfmove_clock = g.halfmove_clock
    unfold Game.make_move Game.unmake_move
    exact hck.symm
  case h4 =>
    show ((g.make_move m).unmake_move.1).en_passant_target_square
      = g.en_passant_target_square
    unfold Game.make_move Game.unmake_move
    exact hep.symm
  case h6 =>
    show ((g.make_move m).unmake_move.1).fullmove_number = g.fullmove_number
    unfold Game.make_move Game.unmake_move
    rcases ht : g.turn <;> simp [Color.invert, ht]
  case h7 =>
    show ((g.make_move m).unmake_move.1).moves = g.moves
    unfold Game.make_move Game.unmake_move
    rfl
  case h8 =>
    show ((g.make_move m).unmake_move.1).legal_moves = g.legal_moves
    unfold Game.make_move Game.unmake_move
    rfl
  case h3 =>
    show ((g.make_move m).unmake_move.1).castling_rights = g.castling_rights
    unfold Game.make_move Game.unmake_move
    apply CastlingRights.rights_ext
    · cases hd : m.losing_castle_rights.white_queenside
      · simp [hd]
      · simp [hd, s1 hd]
    · cases hd : m.losing_castle_rights.white_kingside
      · simp [hd]
      · simp [hd, s2 hd]
    · cases hd : m.losing_castle_rights.black_queenside
      · simp [hd]
      · simp [hd, s3 hd]
    · cases hd : m.losing_castle_rights.black_kingside
      · simp [hd]
      · simp [hd, s4 hd]

theorem boardWF_make {g : Game} {m : Move} (h : BoardWF g.board) :
    BoardWF (g.make_move m).board := by
  unfold Game.make_move
  simp only []
  rcases m.en_passant_capture with _ | c <;>
    rcases m.castle with _ | cst <;>
    first
      | exact boardWF_move_piece h
      | (cases cst <;> exact boardWF_move_piece (boardWF_move_piece h))
      | exact boardWF_move_piece (boardWF_set h)
      | (cases cst <;> exact boardWF_move_piece (boardWF_move_piece (boardWF_set h)))

theorem boardWF_unmake {g : Game} (h : BoardWF g.board) :
    BoardWF (g.unmake_move.1).board := by
  unfold Game.unmake_move
  rcases hm : g.moves with _ | ⟨mov, rest⟩
  · exact h
  simp only []
  rcases mov.en_passant_capture with _ | c <;>
    rcases mov.capture with _ | k <;>
    rcases mov.castle with _ | cst <;>
    first
      | exact boardWF_move_piece h
      | (cases cst <;> exact boardWF_move_piece (boardWF_move_piece h))
      | exact boardWF_set (boardWF_move_piece h)
      | (cases cst <;> exact boardWF_move_piece (boardWF_set (boardWF_move_piece h)))


theorem validate_nonboard {g : Game} {m : Move}
    (hck : ClockCoherent g) (hep : EpCoherent g)
    (hsub : rightsSub m.losing_castle_rights g.castling_rights) :
    ∃ (b : Board) (lm : MoveTable),
      ((g.validate_move m).1 = { g with board := b, legal_moves := lm } ∧
        (BoardWF g.board → BoardWF b)) := by
  have h1 := unmake_make_nonboard hck hep hsub
  set b0 := (g.make_move m).unmake_move.1.board with hb0
  refine ⟨b0,
    shallowTable { g with board := b0, legal_moves := shallowTable (g.make_move m) }, ?_,
    fun hw => boardWF_unmake (boardWF_make hw)⟩
  unfold Game.validate_move
  simp only []
  rw [show (g.make_move m).computeShallow
      = { g.make_move m with legal_moves := shallowTable (g.make_move m) } from rfl,
    unmake_update, h1]
  rfl

/-- A move's provenance: it was generated for `sq` from the current
position with *some* board (the non-board components being the current
ones). -/
def GenFrom (g : Game) (sq : Square) (m : Move) : Prop :=
  ∃ b : Board, m ∈ ({ g with board := b } : Game).compute_legal_moves_on_square sq

/-- Every cached move has generation provenance from the current non-board
state. -/
def TableWF (g : Game) : Prop :=
  ∀ sq ∈ allSquares, ∀ m ∈ tableGet g.legal_moves sq, GenFrom g sq m

theorem retain_nonboard (g0 : Game) (hck : ClockCoherent g0) (hep : EpCoherent g0) :
    ∀ (ms : List Move) (b : Board) (lm : MoveTable),
    (∀ m ∈ ms, rightsSub m.losing_castle_rights g0.castling_rights) →
    ∃ b' lm' kept,
      ({ g0 with board := b, legal_moves := lm } : Game).retainValidate ms
        = ({ g0 with board := b', legal_moves := lm' }, kept) ∧ kept ⊆ ms ∧
        (BoardWF b → BoardWF b') := by
  intro ms
  induction ms with
  | nil =>
    intro b lm hall
    exact ⟨b, lm, [], by simp [Game.retainValidate], by simp, fun hw => hw⟩
  | cons m rest ih =>
    intro b lm hall
    obtain ⟨b1, lm1, e1, hw1⟩ := validate_nonboard
      (g := { g0 with board := b, legal_moves := lm }) (m := m) hck hep (hall m (by simp))
    obtain ⟨b2, lm2, kept, e2, hsub2, hw2⟩ := ih b1 lm1 (fun m' hm' => hall m' (by simp [hm']))
    refine ⟨b2, lm2,
      if (({ g0 with board := b, legal_moves := lm } : Game).validate_move m).2
        then m :: kept else kept, ?_, ?_, fun hw => hw2 (hw1 hw)⟩
    · simp only [Game.retainValidate]
      rw [e1, e2]
    · by_cases hbb : (({ g0 with board := b, legal_moves := lm } : Game).validate_move m).2 = true
      · rw [if_pos hbb]
        exact List.cons_subset_cons m hsub2
      · rw [if_neg hbb]
        exact hsub2.trans (List.subset_cons_self m rest)

/-- All moves of a computed cell have generation provenance. -/
def CellOk (g0 : Game) (sq : Square) (ms : List Move) : Prop :=
  ∀ m ∈ ms, GenFrom g0 sq m

theorem row_nonboard (g0 : Game) (hck : ClockCoherent g0) (hep : EpCoherent g0) :
    ∀ (sqs : List Square) (b : Board) (lm : MoveTable),
    ∃ b' lm' cells,
      ({ g0 with board := b, legal_moves := lm } : Game).computeValidatedRow sqs
        = ({ g0 with board := b', legal_moves := lm' }, cells) ∧
      List.Forall₂ (CellOk g0) sqs cells ∧ (BoardWF b → BoardWF b') := by
  intro sqs
  induction sqs with
  | nil =>
    intro b lm
    exact ⟨b, lm, [], by simp [Game.computeValidatedRow], List.Forall₂.nil, fun hw => hw⟩
  | cons sq sqs ih =>
    intro b lm
    have hall : ∀ m ∈ ({ g0 with board := b, legal_moves := lm } : Game).compute_legal_moves_on_square sq,
        rightsSub m.losing_castle_rights g0.castling_rights :=
      fun m hm => (gen_geninv hm).2.2.1
    obtain ⟨b1, lm1, kept, e1, hkept, hw1⟩ := retain_nonboard g0 hck hep
      (({ g0 with board := b, legal_moves := lm } : Game).compute_legal_moves_on_square sq) b lm hall
    obtain ⟨b2, lm2, cells, e2, hcells, hw2⟩ := ih b1 lm1
    refine ⟨b2, lm2, kept :: cells, ?_, ?_, fun hw => hw2 (hw1 hw)⟩
    · simp only [Game.computeValidatedRow]
      rw [e1, e2]
    · refine List.Forall₂.cons ?_ hcells
      intro m hm
      exact ⟨b, hkept hm⟩

theorem rows_nonboard (g0 : Game) (hck : ClockCoherent g0) (hep : EpCoherent g0) :
    ∀ (rows : List (List Square)) (b : Board) (lm : MoveTable),
    ∃ b' lm' tbl,
      ({ g0 with board := b, legal_moves := lm } : Game).computeValidatedRows rows
        = ({ g0 with board := b', legal_moves := lm' }, tbl) ∧
      List.Forall₂ (List.Forall₂ (CellOk g0)) rows tbl ∧ (BoardWF b → BoardWF b') := by
  intro rows
  induction rows with
  | nil =>
    intro b lm
    exact ⟨b, lm, [], by simp [Game.computeValidatedRows], List.Forall₂.nil, fun hw => hw⟩
  | cons row rows ih =>
    intro b lm
    obtain ⟨b1, lm1, cells, e1, hcells, hw1⟩ := row_nonboard g0 hck hep row b lm
    obtain ⟨b2, lm2, tbl, e2, htbl, hw2⟩ := ih b1 lm1
    refine ⟨b2, lm2, cells :: tbl, ?_, List.Forall₂.cons hcells htbl, fun hw => hw2 (hw1 hw)⟩
    simp only [Game.computeValidatedRows]
    rw [e1, e2]

theorem squareRows_length : squareRows.length = 8 := by decide

theorem allSquares_valid : ∀ sq ∈ allSquares, validSq sq := by decide

theorem tableGet_forall2 {g0 : Game} {T : MoveTable}
    (h : List.Forall₂ (List.Forall₂ (CellOk g0)) squareRows T)
    {sq : Square} (hs : validSq sq) : CellOk g0 sq (tableGet T sq) := by
  obtain ⟨h1, h2, h3, h4⟩ := hs
  have hlen : T.length = 8 := by rw [← h.length_eq]; decide
  have hi : sq.1.toNat < squareRows.length := by rw [squareRows_length]; omega
  have hi' : sq.1.toNat < T.length := by omega
  have hrow := h.get hi hi'
  have hgrow : squareRows.get ⟨sq.1.toNat, hi⟩ = (List.range 8).map
      fun c => (Int.ofNat sq.1.toNat, Int.ofNat c) := by
    unfold squareRows
    rw [List.get_eq_getElem, List.getElem_map, List.getElem_range]
  have hrlen : (T.get ⟨sq.1.toNat, hi'⟩).length = 8 := by
    rw [← hrow.length_eq, hgrow]
    simp
  have hj : sq.2.toNat < (squareRows.get ⟨sq.1.toNat, hi⟩).length := by
    rw [hgrow]
    simp
    omega
  have hj' : sq.2.toNat < (T.get ⟨sq.1.toNat, hi'⟩).length := by omega
  have hcell := hrow.get hj hj'
  have hsq' : (squareRows.get ⟨sq.1.toNat, hi⟩)[sq.2.toNat]? = some sq := by
    rw [hgrow]
    rw [List.getElem?_map]
    rw [List.getElem?_eq_getElem (by simp; omega)]
    rw [List.getElem_range]
    show some (Int.ofNat sq.1.toNat, Int.ofNat sq.2.toNat) = some sq
    have e1 : Int.ofNat sq.1.toNat = sq.1 := Int.toNat_of_nonneg h1
    have e2 : Int.ofNat sq.2.toNat = sq.2 := Int.toNat_of_nonneg h3
    rw [e1, e2]
  have hsq : (squareRows.get ⟨sq.1.toNat, hi⟩).get ⟨sq.2.toNat, hj⟩ = sq := by
    have h0 : (squareRows.get ⟨sq.1.toNat, hi⟩)[sq.2.toNat]?
        = some ((squareRows.get ⟨sq.1.toNat, hi⟩).get ⟨sq.2.toNat, hj⟩) := by
      rw [List.getElem?_eq_getElem hj]
      simp [List.get_eq_getElem]
    rw [h0] at hsq'
    exact (Option.some.injEq _ _ ▸ hsq')
  have hTi : T[sq.1.toNat]? = some (T.get ⟨sq.1.toNat, hi'⟩) := by
    rw [List.getElem?_eq_getElem hi']
    simp [List.get_eq_getElem]
  have hTj : (T.get ⟨sq.1.toNat, hi'⟩)[sq.2.toNat]?
      = some ((T.get ⟨sq.1.toNat, hi'⟩).get ⟨sq.2.toNat, hj'⟩) := by
    rw [List.getElem?_eq_getElem (by simpa [List.get_eq_getElem] using hj')]
    simp [List.get_eq_getElem]
  have htg : tableGet T sq = (T.get ⟨sq.1.toNat, hi'⟩).get ⟨sq.2.toNat, hj'⟩ := by
    unfold tableGet
    rw [List.getD_eq_getElem?_getD, List.getD_eq_getElem?_getD, hTi]
    simp only [Option.getD_some]
    rw [hTj]
    rfl
  rw [hsq] at hcell
  rw [htg]
  exact hcell

/-! ## The reachability invariant -/

/-- Each history move (newest first) has the en-passant-stamp shape of its
mover; the movers alternate, the newest having been the inverse of the
current turn. -/
def HistOk : List Move → Color → Prop
  | [], _ => True
  | m :: rest, turn => MoveShape turn.invert m ∧ HistOk rest turn.invert

/-- The invariant of all reachable positions (robust even to the castling
probes' board corruption, which only touches the board). -/
def Inv (g : Game) : Prop :=
  BoardWF g.board ∧ ClockCoherent g ∧ EpCoherent g ∧ TableWF g ∧ HistOk g.moves g.turn

theorem clockCoherent_make (g : Game) (m : Move) : ClockCoherent (g.make_move m) := rfl

theorem epCoherent_make (g : Game) (m : Move) : EpCoherent (g.make_move m) := rfl

theorem mem_allSquares_of_valid {sq : Square} (hs : validSq sq) : sq ∈ allSquares := by
  obtain ⟨h1, h2, h3, h4⟩ := hs
  unfold allSquares squareRows
  simp only [List.flatMap_id, List.mem_flatten, List.mem_map, List.mem_range]
  refine ⟨(List.range 8).map fun c => (Int.ofNat sq.1.toNat, Int.ofNat c),
    ⟨sq.1.toNat, by omega, rfl⟩, ?_⟩
  simp only [List.mem_map, List.mem_range]
  refine ⟨sq.2.toNat, by omega, ?_⟩
  rw [Prod.ext_iff]
  exact ⟨Int.toNat_of_nonneg h1, Int.toNat_of_nonneg h3⟩

theorem request_move_success {g g' : Game} {f t : Square}
    (h : g.request_move f t = some (g', true)) :
    validSq f ∧ ∃ mc, mc ∈ tableGet g.legal_moves f ∧ mc.to_ = t ∧
      g' = (g.make_move mc).compute_legal_moves true := by
  unfold Game.request_move Game.legal_moves_on_square at h
  by_cases hv : 0 ≤ f.1 ∧ f.1 < 8 ∧ 0 ≤ f.2 ∧ f.2 < 8
  · rw [if_pos hv] at h
    simp only [] at h
    rcases hf : (tableGet g.legal_moves f).find? (fun mov => mov.to_ = t) with _ | mc <;>
      rw [hf] at h
    · simp at h
    · simp only [Option.some.injEq, Prod.mk.injEq] at h
      refine ⟨hv, mc, List.mem_of_find?_eq_some hf, ?_, h.1.symm⟩
      have := List.find?_some hf
      simpa using this
  · rw [if_neg hv] at h
    simp at h

theorem request_move_failure {g g' : Game} {f t : Square}
    (h : g.request_move f t = some (g', false)) : g' = g := by
  unfold Game.request_move Game.legal_moves_on_square at h
  by_cases hv : 0 ≤ f.1 ∧ f.1 < 8 ∧ 0 ≤ f.2 ∧ f.2 < 8
  · rw [if_pos hv] at h
    simp only [] at h
    rcases hf : (tableGet g.legal_moves f).find? (fun mov => mov.to_ = t) with _ | mc <;>
      rw [hf] at h
    · simp only [Option.some.injEq, Prod.mk.injEq] at h
      exact h.1.symm
    · simp at h
  · rw [if_neg hv] at h
    simp at h

theorem inv_compute_true {h : Game} (hwf : BoardWF h.board) (hck : ClockCoherent h)
    (hep : EpCoherent h) (hist : HistOk h.moves h.turn) :
    Inv (h.compute_legal_moves true) := by
  obtain ⟨b', lm', tbl, e, htbl, hw⟩ :=
    rows_nonboard h hck hep squareRows h.board h.legal_moves
  have e' : h.computeValidatedRows squareRows
      = ({ h with board := b', legal_moves := lm' }, tbl) := e
  have hres : h.compute_legal_moves true = { h with board := b', legal_moves := tbl } := by
    rw [show h.compute_legal_moves true
        = { (h.computeValidatedRows squareRows).1 with
            legal_moves := (h.computeValidatedRows squareRows).2 } from rfl, e']
  rw [hres]
  refine ⟨hw hwf, hck, hep, ?_, hist⟩
  intro sq hsq m hm
  have hcell := tableGet_forall2 htbl (allSquares_valid sq hsq)
  obtain ⟨bb, hbb⟩ := hcell m hm
  exact ⟨bb, hbb⟩

theorem reachable_inv {g : Game} (hr : Reachable g) : Inv g := by
  induction hr with
  | start =>
    exact inv_compute_true (h := initialGame) (by decide) rfl rfl trivial
  | @move g0 g' f t b hr0 hstep ih =>
    cases b
    · rw [request_move_failure hstep]
      exact ih
    · obtain ⟨hvf, mc, hmem, hto, hg'⟩ := request_move_success hstep
      obtain ⟨ihwf, ihck, ihep, ihtw, ihhist⟩ := ih
      obtain ⟨bb, hbb⟩ := ihtw f (mem_allSquares_of_valid hvf) mc hmem
      have hshape : MoveShape g0.turn mc := (gen_geninv hbb).2.1
      rw [hg']
      have hh : HistOk (g0.make_move mc).moves (g0.make_move mc).turn := by
        show MoveShape g0.turn.invert.invert mc ∧ HistOk g0.moves g0.turn.invert.invert
        rw [Color.invert_invert]
        exact ⟨hshape, ihhist⟩
      exact inv_compute_true (boardWF_make ihwf) (clockCoherent_make _ _)
        (epCoherent_make _ _) hh
  | @undo g0 hr0 ih =>
    obtain ⟨ihwf, ihck, ihep, ihtw, ihhist⟩ := ih
    unfold Game.unmake_move_and_recalculate
    rcases hm : g0.moves with _ | ⟨mc, rest⟩
    · have h1 : g0.unmake_move.1 = g0 := by
        unfold Game.unmake_move
        rw [hm]
      rw [h1]
      exact inv_compute_true ihwf ihck ihep ihhist
    · have hck1 : ClockCoherent g0.unmake_move.1 := by
        unfold Game.unmake_move ClockCoherent
        rw [hm]
      have hep1 : EpCoherent g0.unmake_move.1 := by
        unfold Game.unmake_move EpCoherent
        rw [hm]
      have hhist1 : HistOk g0.unmake_move.1.moves g0.unmake_move.1.turn := by
        have hmv : g0.unmake_move.1.moves = rest ∧ g0.unmake_move.1.turn = g0.turn.invert := by
          unfold Game.unmake_move
          rw [hm]
          exact ⟨rfl, rfl⟩
        rw [hmv.1, hmv.2]
        rw [hm] at ihhist
        exact ihhist.2
      exact inv_compute_true (boardWF_unmake ihwf) hck1 hep1 hhist1


/-! ## Supporting lemmas for the claim theorems -/

theorem gen_empty_invalid {g : Game} {sq : Square} (h : ¬ validSq sq) :
    g.compute_legal_moves_on_square sq = [] := by
  have hp : g.piece_at_square sq = none := by
    unfold Game.piece_at_square is_valid_square
    rw [if_neg (show ¬(0 ≤ sq.1 ∧ sq.1 < 8 ∧ 0 ≤ sq.2 ∧ sq.2 < 8) from h)]
  unfold Game.compute_legal_moves_on_square
  rw [hp]

theorem tableGet_mapTable (f : Square → List Move) {sq : Square} (hs : validSq sq) :
    tableGet (squareRows.map fun row => row.map f) sq = f sq := by
  obtain ⟨h1, h2, h3, h4⟩ := hs
  have hi : sq.1.toNat < 8 := by omega
  have hj : sq.2.toNat < 8 := by omega
  unfold tableGet squareRows
  rw [List.getD_eq_getElem?_getD, List.getD_eq_getElem?_getD]
  rw [List.getElem?_map, List.getElem?_map, List.getElem?_range hi]
  simp only [Option.map_some', Option.getD_some]
  rw [List.getElem?_map, List.getElem?_map, List.getElem?_range hj]
  simp only [Option.map_some', Option.getD_some]
  have e1 : Int.ofNat sq.1.toNat = sq.1 := Int.toNat_of_nonneg h1
  have e2 : Int.ofNat sq.2.toNat = sq.2 := Int.toNat_of_nonneg h3
  rw [e1, e2]

theorem make_legal_moves_update (h : Game) (Y : MoveTable) (m : Move) :
    ({ h with legal_moves := Y }).make_move m = { h.make_move m with legal_moves := Y } := rfl

theorem gen_legal_moves_update (h : Game) (Y : MoveTable) (sq : Square) :
    ({ h with legal_moves := Y }).compute_legal_moves_on_square sq
      = h.compute_legal_moves_on_square sq := rfl

theorem kingCapturableAfter_update (h : Game) (Y : MoveTable) (m : Move) :
    KingCapturableAfter { h with legal_moves := Y } m ↔ KingCapturableAfter h m := by
  unfold KingCapturableAfter
  rw [make_legal_moves_update]
  simp only [gen_legal_moves_update]

theorem lkc_iff (g : Game) (m : Move) :
    leavesKingCapturable g m = true ↔ KingCapturableAfter g m := by
  unfold leavesKingCapturable KingCapturableAfter
  have htg : ∀ sq, validSq sq →
      tableGet ((g.make_move m).computeShallow).legal_moves sq
        = (g.make_move m).compute_legal_moves_on_square sq := by
    intro sq hv
    exact tableGet_mapTable (g.make_move m).compute_legal_moves_on_square hv
  unfold Game.any_king_captures
  rw [List.any_eq_true]
  constructor
  · rintro ⟨sq, hsq, hany⟩
    rw [List.any_eq_true] at hany
    obtain ⟨m2, hm2, hcap⟩ := hany
    rw [htg sq (allSquares_valid sq hsq)] at hm2
    exact ⟨sq, hsq, m2, hm2, of_decide_eq_true hcap⟩
  · rintro ⟨sq, hsq, m2, hm2, hcap⟩
    refine ⟨sq, hsq, ?_⟩
    rw [List.any_eq_true]
    refine ⟨m2, ?_, decide_eq_true hcap⟩
    rw [htg sq (allSquares_valid sq hsq)]
    exact hm2

/-- Every pseudo-legal move of the position is coherent with its board: the
hypothesis under which the validated rebuild is exact. -/
def CleanPosition (h : Game) : Prop :=
  ∀ sq ∈ allSquares, ∀ m ∈ h.compute_legal_moves_on_square sq, MoveOk h m

instance (h : Game) : Decidable (CleanPosition h) := by
  unfold CleanPosition; infer_instance

theorem clean_all (h : Game) (hc : CleanPosition h) :
    ∀ sq m, m ∈ h.compute_legal_moves_on_square sq → MoveOk h m := by
  intro sq m hm
  by_cases hv : validSq sq
  · exact hc sq (mem_allSquares_of_valid hv) m hm
  · rw [gen_empty_invalid hv] at hm
    cases hm


/-! ## Concrete positions and traces used by the claim theorems -/

/-- The successor state of a `request_move` call (identity on failure),
used to spell out concrete traces. -/
def step (g : Game) (f t : Square) : Game :=
  match g.request_move f t with
  | some p => p.1
  | none => g

/-- Play a list of `(from, to)` requests from a position. -/
def playSteps (g : Game) : List (Square × Square) → Game
  | [] => g
  | (f, t) :: rest => playSteps (step g f t) rest

theorem reachable_step {g : Game} (hr : Reachable g) (f t : Square) {p : Game × Bool}
    (h : g.request_move f t = some p) : Reachable (step g f t) := by
  have hs : step g f t = p.1 := by unfold step; rw [h]
  rw [hs]
  exact Reachable.move hr h

/-- 1.g4 e5 2.Nh3 Qh4 3.e3 Qxg4 4.f3 Qg2 5.a3 Qxh1 6.Ke2 a6: after the
king steps to e2 with the h1 rook already captured, the final rebuild
caches a king retreat that leaves the king capturable. -/
def movesC1 : List (Square × Square) :=
  [((6,6),(4,6)), ((1,4),(3,4)), ((7,6),(5,7)), ((0,3),(4,7)),
   ((6,4),(5,4)), ((4,7),(4,6)), ((6,5),(5,5)), ((4,6),(6,6)),
   ((6,0),(5,0)), ((6,6),(7,7)), ((7,4),(6,4)), ((1,0),(2,0))]

def sC1 : Game := playSteps defaultGame movesC1

/-- The cached white king retreat e2-e1 in `sC1`. -/
def mKe1 : Move :=
  { Move.defaultMove with
    from_ := (6,4)
    to_ := (7,4)
    halfmove_clock := 1 }

/-- 1.d3 Nf6 2.Nd2 Ng4 3.f3 Nxh2 4.g3 Nxf1 5.e3 a6 6.Ke2 a5: the final
rebuild kingside-castle probe (king on e2) deletes the black knight on
f1, leaving the already-built d2 cell with a stale capture. -/
def movesC2 : List (Square × Square) :=
  [((6,3),(5,3)), ((0,6),(2,5)), ((7,1),(6,3)), ((2,5),(4,6)),
   ((6,5),(5,5)), ((4,6),(6,7)), ((6,6),(5,6)), ((6,7),(7,5)),
   ((6,4),(5,4)), ((1,0),(2,0)), ((7,4),(6,4)), ((2,0),(3,0))]

def sC2 : Game := playSteps defaultGame movesC2

/-- The stale cached capture Nd2xf1 in `sC2` (the f1 square is empty). -/
def mNxf1 : Move :=
  { Move.defaultMove with
    from_ := (6,3)
    to_ := (7,5)
    capture := some PieceType.Knight }

/-- The kingside-castle move that the generator of `sC2` emits for the
king on e2. -/
def mCastleC7 : Move :=
  { Move.defaultMove with
    from_ := (6,4)
    to_ := (6,6)
    castle := some Castling.WhiteKingside
    losing_castle_rights :=
      { white_queenside := true
        white_kingside := true
        black_queenside := false
        black_kingside := false }
    halfmove_clock := 1 }

/-- 1.e3 a6 2.Ke2: a committed plain king move. -/
def movesC4 : List (Square × Square) :=
  [((6,4),(5,4)), ((1,0),(2,0)), ((7,4),(6,4))]

def sC4 : Game := playSteps defaultGame movesC4

/-- The committed king move e1-e2 heading the history of `sC4`. -/
def mKe2 : Move :=
  { Move.defaultMove with
    from_ := (7,4)
    to_ := (6,4)
    halfmove_clock := 1 }

/-- 1.a3 e5 2.h3 Ke7 3.a4 Ke6 4.h4: the wandering black king castle
probes corrupt the board (the f8 bishop is deleted) and leave stale
cached moves on the now-empty f8 square. -/
def movesC8 : List (Square × Square) :=
  [((6,0),(5,0)), ((1,4),(3,4)), ((6,7),(5,7)), ((0,4),(1,4)),
   ((5,0),(4,0)), ((1,4),(2,4)), ((5,7),(4,7))]

def sC8 : Game := playSteps defaultGame movesC8

/-- 1.e4 h6 2.e5 h5 3.c4 d5: White to move; the last applied move is the
double advance d7-d5 over d6, the one before it the double advance c2-c4
over c3, and e5xd6 en passant is cached. -/
def movesC9 : List (Square × Square) :=
  [((6,4),(4,4)), ((1,7),(2,7)), ((4,4),(3,4)), ((2,7),(3,7)),
   ((6,2),(4,2)), ((1,3),(3,3))]

def sC9 : Game := playSteps defaultGame movesC9

/-- The cached en-passant capture e5xd6 in `sC9`. -/
def mEp : Move :=
  { Move.defaultMove with
    from_ := (3,4)
    to_ := (2,3)
    capture := some PieceType.Pawn
    en_passant_capture := some (3,3) }

/-- The applied double advance d7-d5 heading the history of `sC9`. -/
def mvD5 : Move :=
  { Move.defaultMove with
    from_ := (1,3)
    to_ := (3,3)
    en_passant_target_square := some (2,3) }

/-- The applied double advance c2-c4, second in the history of `sC9`. -/
def mvC4adv : Move :=
  { Move.defaultMove with
    from_ := (6,2)
    to_ := (4,2)
    en_passant_target_square := some (5,2) }

/-- The cached advance a2-a3 of the default game. -/
def mA3 : Move :=
  { Move.defaultMove with
    from_ := (6,0)
    to_ := (5,0) }

/-- A minimal promotion position: a white pawn on a7, kings on h8 and e1. -/
def promoBoard : Board :=
  [[none, none, none, none, none, none, none,
    some { piece_type := PieceType.King, color := Color.Black }],
   [some { piece_type := PieceType.Pawn, color := Color.White },
    none, none, none, none, none, none, none],
   List.replicate 8 none, List.replicate 8 none, List.replicate 8 none,
   List.replicate 8 none, List.replicate 8 none,
   [none, none, none, none,
    some { piece_type := PieceType.King, color := Color.White }, none, none, none]]

def promoGame : Game :=
  { board := promoBoard
    turn := Color.White
    castling_rights := CastlingRights.noRights
    en_passant_target_square := none
    halfmove_clock := 3
    fullmove_number := 20
    moves := []
    legal_moves := List.replicate 8 (List.replicate 8 []) }

/-- The generated queen promotion a7-a8=Q. -/
def promoMove : Move :=
  { Move.defaultMove with
    from_ := (1,0)
    to_ := (0,0)
    promotion := some PieceType.Queen }

/-- A castle-ready position: white king e1, white rooks a1 and h1, black
king e8, every intervening square empty, all rights held. -/
def castleBoard : Board :=
  [[none, none, none, none,
    some { piece_type := PieceType.King, color := Color.Black }, none, none, none],
   List.replicate 8 none, List.replicate 8 none, List.replicate 8 none,
   List.replicate 8 none, List.replicate 8 none, List.replicate 8 none,
   [some { piece_type := PieceType.Rook, color := Color.White }, none, none, none,
    some { piece_type := PieceType.King, color := Color.White }, none, none,
    some { piece_type := PieceType.Rook, color := Color.White }]]

def castleGame : Game :=
  { board := castleBoard
    turn := Color.White
    castling_rights := CastlingRights.defaultRights
    en_passant_target_square := none
    halfmove_clock := 5
    fullmove_number := 12
    moves := []
    legal_moves := List.replicate 8 (List.replicate 8 []) }

/-- The kingside castle generated in `castleGame`. -/
def mWK : Move :=
  { Move.defaultMove with
    from_ := (7,4)
    to_ := (7,6)
    castle := some Castling.WhiteKingside
    losing_castle_rights :=
      { white_queenside := true
        white_kingside := true
        black_queenside := false
        black_kingside := false }
    halfmove_clock := 6 }

/-- The queenside castle generated in `castleGame`. -/
def mWQ : Move :=
  { Move.defaultMove with
    from_ := (7,4)
    to_ := (7,2)
    castle := some Castling.WhiteQueenside
    losing_castle_rights :=
      { white_queenside := true
        white_kingside := true
        black_queenside := false
        black_kingside := false } }

/-- The castling variant of the kingside wing of a side. -/
def kingsideOf : Color → Castling
  | .Black => .BlackKingside
  | .White => .WhiteKingside

/-- The castling variant of the queenside wing of a side. -/
def queensideOf : Color → Castling
  | .Black => .BlackQueenside
  | .White => .WhiteQueenside

/-- The kingside right of the side to move. -/
def kingsideRight (g : Game) : Bool :=
  match g.turn with
  | .Black => g.castling_rights.black_kingside
  | .White => g.castling_rights.white_kingside

/-- The queenside right of the side to move. -/
def queensideRight (g : Game) : Bool :=
  match g.turn with
  | .Black => g.castling_rights.black_queenside
  | .White => g.castling_rights.white_queenside

/-! ## Claim theorems: C6, C3, C5, C8 (amended part), C10 -/

/-- C6: in the freshly constructed game the fully validated cached table
holds exactly 20 moves in total over its 64 entries. -/
theorem C6_initial_position_has_twenty_moves : totalCachedMoves defaultGame = 20 := by
  rfl

/-- C3: the code does not apply promotions.  In `promoGame` the generated
queen promotion `promoMove` is pseudo-legal, yet after `make_move` the
piece standing on the destination square is still a Pawn: the Rust write
`self.board[...].unwrap().piece_type = p` mutates a copy. -/
theorem C3_promotion_leaves_pawn :
    promoMove ∈ promoGame.compute_legal_moves_on_square (1, 0) ∧
    promoMove.promotion = some PieceType.Queen ∧
    boardGet (promoGame.make_move promoMove).board (0, 0) =
      some { piece_type := PieceType.Pawn, color := Color.White } := by
  refine ⟨by decide, rfl, by decide⟩

/-- C5 counterexample: on the out-of-range coordinate (-1, 0),
`piece_at_square` is indeed total and returns empty, but the cached-table
lookup of `legal_moves_on_square` indexes the 8×8 array unchecked, so it
and `request_move` panic (embedded as `none`, distinct from the in-range
failure result `some (g, false)`). -/
theorem C5_counterexample :
    initialGame.piece_at_square (-1, 0) = none ∧
    initialGame.legal_moves_on_square (-1, 0) = none ∧
    initialGame.request_move (-1, 0) (0, 0) = none := by
  refine ⟨rfl, rfl, rfl⟩

/-- C5_amended: `piece_at_square` is total and returns empty on every
out-of-range coordinate, while `legal_moves_on_square` and `request_move`
fault (panic, embedded `none`) on every out-of-range from-square. -/
theorem C5_amended (g : Game) (sq t : Square) (hsq : ¬ validSq sq) :
    g.piece_at_square sq = none ∧ g.legal_moves_on_square sq = none ∧
    g.request_move sq t = none := by
  have hp : g.piece_at_square sq = none := by
    unfold Game.piece_at_square is_valid_square
    rw [if_neg (show ¬(0 ≤ sq.1 ∧ sq.1 < 8 ∧ 0 ≤ sq.2 ∧ sq.2 < 8) from hsq)]
  have hl : g.legal_moves_on_square sq = none := by
    unfold Game.legal_moves_on_square
    rw [if_neg (show ¬(0 ≤ sq.1 ∧ sq.1 < 8 ∧ 0 ≤ sq.2 ∧ sq.2 < 8) from hsq)]
  refine ⟨hp, hl, ?_⟩
  unfold Game.request_move
  rw [hl]

/-- C5 witness: the amended theorem applied to the initial game at
(-1, 0). -/
theorem C5_amended_witness :
    initialGame.piece_at_square (-1, 0) = none ∧
    initialGame.legal_moves_on_square (-1, 0) = none ∧
    initialGame.request_move (-1, 0) (1, 0) = none :=
  C5_amended initialGame (-1, 0) (1, 0) (by decide)

/-- C8_amended: a `request_move` whose valid from-square has an *empty*
cached list fails and returns the state unchanged, and the generator
emits no moves for a square that is empty or holds a piece of the side
not to move.  (In reachable states the cached list of an empty square can
nevertheless be stale and non-empty, so `request_move` can succeed there:
see the C8 counterexample.) -/
theorem C8_amended (g : Game) (f t : Square) :
    (validSq f → tableGet g.legal_moves f = [] →
      g.request_move f t = some (g, false)) ∧
    ((g.piece_at_square f = none ∨
        ∃ p, g.piece_at_square f = some p ∧ p.color ≠ g.turn) →
      g.compute_legal_moves_on_square f = []) := by
  constructor
  · intro hv he
    unfold Game.request_move Game.legal_moves_on_square
    rw [if_pos (show 0 ≤ f.1 ∧ f.1 < 8 ∧ 0 ≤ f.2 ∧ f.2 < 8 from hv)]
    rw [he]
    rfl
  · intro hcase
    unfold Game.compute_legal_moves_on_square
    rcases hcase with hnone | ⟨p, hp, hne⟩
    · rw [hnone]
    · simp only [hp]
      rw [if_pos hne]

/-- C8 witness: the amended theorem applied to the initial game (whose
cached table is still empty) at the empty square (4, 4). -/
theorem C8_amended_witness :
    initialGame.request_move (4, 4) (3, 4) = some (initialGame, false) ∧
    initialGame.compute_legal_moves_on_square (4, 4) = [] :=
  ⟨(C8_amended initialGame (4, 4) (3, 4)).1 (by decide) (by decide),
   (C8_amended initialGame (4, 4) (3, 4)).2 (Or.inl (by decide))⟩

/-- C10: every generated castling move stores `halfmove_clock + 1` when it
is a kingside castle and `0` when it is a queenside castle, and
`make_move` installs that stored value as the half-move clock of the game. -/
theorem C10_castle_clock_asymmetry {g : Game} (sq : Square) {m : Move}
    {cs : Castling} (hm : m ∈ g.compute_legal_moves_on_square sq)
    (hcs : m.castle = some cs) :
    ((cs = Castling.WhiteKingside ∨ cs = Castling.BlackKingside) →
      m.halfmove_clock = g.halfmove_clock + 1 ∧
      (g.make_move m).halfmove_clock = g.halfmove_clock + 1) ∧
    ((cs = Castling.WhiteQueenside ∨ cs = Castling.BlackQueenside) →
      m.halfmove_clock = 0 ∧ (g.make_move m).halfmove_clock = 0) := by
  have h4 := (gen_geninv hm).2.2.2 cs hcs
  have hmk : (g.make_move m).halfmove_clock = m.halfmove_clock := rfl
  exact ⟨fun hk => ⟨h4.1 hk, by rw [hmk, h4.1 hk]⟩,
         fun hq => ⟨h4.2 hq, by rw [hmk, h4.2 hq]⟩⟩

/-- C10 witness: the two castles generated in the castle-ready position
`castleGame`: the kingside one carries clock 5 + 1, the queenside one
clock 0, and committing them installs those clocks. -/
theorem C10_witness :
    (mWK.halfmove_clock = castleGame.halfmove_clock + 1 ∧
      (castleGame.make_move mWK).halfmove_clock = castleGame.halfmove_clock + 1) ∧
    (mWQ.halfmove_clock = 0 ∧ (castleGame.make_move mWQ).halfmove_clock = 0) :=
  ⟨(C10_castle_clock_asymmetry (7, 4) (by decide) rfl).1 (Or.inl rfl),
   (C10_castle_clock_asymmetry (7, 4) (by decide) rfl).2 (Or.inl rfl)⟩


/-! ## C7: characterization of castle generation -/

/-- The `lose_all_castling` rights delta castle moves carry. -/
def loseAll (g : Game) (c : Color) : CastlingRights :=
  { white_queenside := c = Color.White ∧ g.castling_rights.white_queenside
    white_kingside := c = Color.White ∧ g.castling_rights.white_kingside
    black_queenside := c = Color.Black ∧ g.castling_rights.black_queenside
    black_kingside := c = Color.Black ∧ g.castling_rights.black_kingside }

/-- The kingside-castle move `kingMoves` pushes. -/
def ksMove (g : Game) (sq : Square) (c : Color) : Move :=
  { Move.defaultMove with
    from_ := sq
    to_ := (sq.1, 6)
    castle := some (match c with
      | Color.Black => Castling.BlackKingside
      | Color.White => Castling.WhiteKingside)
    losing_castle_rights := loseAll g c
    halfmove_clock := g.halfmove_clock + 1 }

/-- The queenside-castle move `kingMoves` pushes. -/
def qsMove (g : Game) (sq : Square) (c : Color) : Move :=
  { Move.defaultMove with
    from_ := sq
    to_ := (sq.1, 2)
    castle := some (match c with
      | Color.Black => Castling.BlackQueenside
      | Color.White => Castling.WhiteQueenside)
    losing_castle_rights := loseAll g c }

theorem kingMoves_generic_no_castle {g : Game} {sq : Square} {m : Move}
    (hm : m ∈ KING_MOVES.filterMap fun mov =>
      g.generic_move sq (sq.1 + mov.1, sq.2 + mov.2)) : m.castle = none := by
  rw [List.mem_filterMap] at hm
  obtain ⟨off, _, hgm⟩ := hm
  exact (generic_move_shape hgm).2.2.1

theorem kingMoves_castle_iff (g : Game) (sq : Square) (c : Color) :
    ((∃ m ∈ kingMoves g sq c, m.castle = some (kingsideOf c)) ↔
      ((match c with
        | Color.Black => g.castling_rights.black_kingside
        | Color.White => g.castling_rights.white_kingside) = true ∧
       g.piece_at_square (sq.1, 5) = none ∧ g.piece_at_square (sq.1, 6) = none)) ∧
    ((∃ m ∈ kingMoves g sq c, m.castle = some (queensideOf c)) ↔
      ((match c with
        | Color.Black => g.castling_rights.black_queenside
        | Color.White => g.castling_rights.white_queenside) = true ∧
       g.piece_at_square (sq.1, 1) = none ∧ g.piece_at_square (sq.1, 2) = none ∧
       g.piece_at_square (sq.1, 3) = none)) := by
  rcases c with _ | _
  case Black =>
    have hkm : kingMoves g sq Color.Black
        = (KING_MOVES.filterMap fun mov =>
            g.generic_move sq (sq.1 + mov.1, sq.2 + mov.2))
          ++ (if g.castling_rights.black_kingside = true then
                if (g.piece_at_square (sq.1, 5)).isNone ∧
                   (g.piece_at_square (sq.1, 6)).isNone then
                  [ksMove g sq Color.Black] else [] else [])
          ++ (if g.castling_rights.black_queenside = true then
                if (g.piece_at_square (sq.1, 1)).isNone ∧
                   (g.piece_at_square (sq.1, 2)).isNone ∧
                   (g.piece_at_square (sq.1, 3)).isNone then
                  [qsMove g sq Color.Black] else [] else []) := rfl
    rw [hkm]
    constructor
    · constructor
      · rintro ⟨m, hm, hcs⟩
        rw [List.mem_append, List.mem_append] at hm
        rcases hm with (hg | hks) | hqs
        · rw [kingMoves_generic_no_castle hg] at hcs
          cases hcs
        · split_ifs at hks with h1 h2
          · rw [List.mem_singleton] at hks
            exact ⟨h1, Option.isNone_iff_eq_none.mp h2.1,
                   Option.isNone_iff_eq_none.mp h2.2⟩
          · cases hks
          · cases hks
        · split_ifs at hqs with h1 h2
          · rw [List.mem_singleton] at hqs
            rw [hqs] at hcs
            cases hcs
          · cases hqs
          · cases hqs
      · rintro ⟨h1, h5, h6⟩
        refine ⟨ksMove g sq Color.Black, ?_, rfl⟩
        rw [List.mem_append]
        left
        rw [List.mem_append]
        right
        rw [if_pos h1, if_pos ⟨Option.isNone_iff_eq_none.mpr h5,
          Option.isNone_iff_eq_none.mpr h6⟩]
        exact List.mem_singleton.mpr rfl
    · constructor
      · rintro ⟨m, hm, hcs⟩
        rw [List.mem_append, List.mem_append] at hm
        rcases hm with (hg | hks) | hqs
        · rw [kingMoves_generic_no_castle hg] at hcs
          cases hcs
        · split_ifs at hks with h1 h2
          · rw [List.mem_singleton] at hks
            rw [hks] at hcs
            cases hcs
          · cases hks
          · cases hks
        · split_ifs at hqs with h1 h2
          · rw [List.mem_singleton] at hqs
            exact ⟨h1, Option.isNone_iff_eq_none.mp h2.1,
                   Option.isNone_iff_eq_none.mp h2.2.1,
                   Option.isNone_iff_eq_none.mp h2.2.2⟩
          · cases hqs
          · cases hqs
      · rintro ⟨h1, h2, h3, h4⟩
        refine ⟨qsMove g sq Color.Black, ?_, rfl⟩
        rw [List.mem_append]
        right
        rw [if_pos h1, if_pos ⟨Option.isNone_iff_eq_none.mpr h2,
          Option.isNone_iff_eq_none.mpr h3, Option.isNone_iff_eq_none.mpr h4⟩]
        exact List.mem_singleton.mpr rfl
  case White =>
    have hkm : kingMoves g sq Color.White
        = (KING_MOVES.filterMap fun mov =>
            g.generic_move sq (sq.1 + mov.1, sq.2 + mov.2))
          ++ (if g.castling_rights.white_kingside = true then
                if (g.piece_at_square (sq.1, 5)).isNone ∧
                   (g.piece_at_square (sq.1, 6)).isNone then
                  [ksMove g sq Color.White] else [] else [])
          ++ (if g.castling_rights.white_queenside = true then
                if (g.piece_at_square (sq.1, 1)).isNone ∧
                   (g.piece_at_square (sq.1, 2)).isNone ∧
                   (g.piece_at_square (sq.1, 3)).isNone then
                  [qsMove g sq Color.White] else [] else []) := rfl
    rw [hkm]
    constructor
    · constructor
      · rintro ⟨m, hm, hcs⟩
        rw [List.mem_append, List.mem_append] at hm
        rcases hm with (hg | hks) | hqs
        · rw [kingMoves_generic_no_castle hg] at hcs
          cases hcs
        · split_ifs at hks with h1 h2
          · rw [List.mem_singleton] at hks
            exact ⟨h1, Option.isNone_iff_eq_none.mp h2.1,
                   Option.isNone_iff_eq_none.mp h2.2⟩
          · cases hks
          · cases hks
        · split_ifs at hqs with h1 h2
          · rw [List.mem_singleton] at hqs
            rw [hqs] at hcs
            cases hcs
          · cases hqs
          · cases hqs
      · rintro ⟨h1, h5, h6⟩
        refine ⟨ksMove g sq Color.White, ?_, rfl⟩
        rw [List.mem_append]
        left
        rw [List.mem_append]
        right
        rw [if_pos h1, if_pos ⟨Option.isNone_iff_eq_none.mpr h5,
          Option.isNone_iff_eq_none.mpr h6⟩]
        exact List.mem_singleton.mpr rfl
    · constructor
      · rintro ⟨m, hm, hcs⟩
        rw [List.mem_append, List.mem_append] at hm
        rcases hm with (hg | hks) | hqs
        · rw [kingMoves_generic_no_castle hg] at hcs
          cases hcs
        · split_ifs at hks with h1 h2
          · rw [List.mem_singleton] at hks
            rw [hks] at hcs
            cases hcs
          · cases hks
          · cases hks
        · split_ifs at hqs with h1 h2
          · rw [List.mem_singleton] at hqs
            exact ⟨h1, Option.isNone_iff_eq_none.mp h2.1,
                   Option.isNone_iff_eq_none.mp h2.2.1,
                   Option.isNone_iff_eq_none.mp h2.2.2⟩
          · cases hqs
          · cases hqs
      · rintro ⟨h1, h2, h3, h4⟩
        refine ⟨qsMove g sq Color.White, ?_, rfl⟩
        rw [List.mem_append]
        right
        rw [if_pos h1, if_pos ⟨Option.isNone_iff_eq_none.mpr h2,
          Option.isNone_iff_eq_none.mpr h3, Option.isNone_iff_eq_none.mpr h4⟩]
        exact List.mem_singleton.mpr rfl

/-- C7_amended: for the side to move's king on any square, a castling
move of a wing is generated iff that wing's right is held and the wing's
transit columns on the king's *current* row are empty (columns 5-6
kingside, 1-3 queenside); the code never looks at the home row or at the
rook. -/
theorem C7_amended (g : Game) (sq : Square) (p : Piece)
    (hp : g.piece_at_square sq = some p) (hk : p.piece_type = PieceType.King)
    (hc : p.color = g.turn) :
    ((∃ m ∈ g.compute_legal_moves_on_square sq,
        m.castle = some (kingsideOf g.turn)) ↔
      (kingsideRight g = true ∧ g.piece_at_square (sq.1, 5) = none ∧
        g.piece_at_square (sq.1, 6) = none)) ∧
    ((∃ m ∈ g.compute_legal_moves_on_square sq,
        m.castle = some (queensideOf g.turn)) ↔
      (queensideRight g = true ∧ g.piece_at_square (sq.1, 1) = none ∧
        g.piece_at_square (sq.1, 2) = none ∧
        g.piece_at_square (sq.1, 3) = none)) := by
  obtain ⟨pt, pc⟩ := p
  have hk' : pt = PieceType.King := hk
  have hc' : pc = g.turn := hc
  subst hk'
  subst hc'
  have hgen : g.compute_legal_moves_on_square sq = kingMoves g sq g.turn := by
    unfold Game.compute_legal_moves_on_square
    simp only [hp]
    rw [if_neg (show ¬(({ piece_type := PieceType.King, color := g.turn } :
      Piece).color ≠ g.turn) from fun h => h rfl)]
  rw [hgen]
  exact kingMoves_castle_iff g sq g.turn

/-- C7 witness: in the castle-ready position `castleGame` both castles
are generated, by the amended characterization. -/
theorem C7_amended_witness :
    (∃ m ∈ castleGame.compute_legal_moves_on_square (7, 4),
        m.castle = some (kingsideOf castleGame.turn)) ∧
    (∃ m ∈ castleGame.compute_legal_moves_on_square (7, 4),
        m.castle = some (queensideOf castleGame.turn)) :=
  ⟨((C7_amended castleGame (7, 4)
      { piece_type := PieceType.King, color := Color.White } (by decide) rfl
      rfl).1).mpr ⟨rfl, rfl, rfl⟩,
   ((C7_amended castleGame (7, 4)
      { piece_type := PieceType.King, color := Color.White } (by decide) rfl
      rfl).2).mpr ⟨rfl, rfl, rfl, rfl⟩⟩


/-! ## C1 and C2: the legality invariant and the round trip, amended -/

/-- C1_amended: on any position with a well-formed board whose clock and
en-passant fields agree with its history and *all* of whose pseudo-legal
moves are coherent with its board (`CleanPosition` — true of a fresh
position but violated in some reachable states by the castling-probe
corruption), the freshly validated rebuild caches no move that leaves the
mover's own king capturable on the immediate reply. -/
theorem C1_amended (h : Game) (hwf : BoardWF h.board) (hck : ClockCoherent h)
    (hep : EpCoherent h) (hclean : CleanPosition h) :
    ∀ sq ∈ allSquares,
      ∀ m ∈ tableGet (h.compute_legal_moves true).legal_moves sq,
        ¬ KingCapturableAfter (h.compute_legal_moves true) m := by
  have hres := compute_true_clean h hwf hck hep (clean_all h hclean)
  rw [hres]
  intro sq hsq m hm
  have hm2 : m ∈ tableGet (validTable h) sq := hm
  have hm3 : m ∈ tableGet (squareRows.map fun row => row.map fun s =>
      (h.compute_legal_moves_on_square s).filter fun mv =>
        !leavesKingCapturable h mv) sq := hm2
  rw [tableGet_mapTable (fun s => (h.compute_legal_moves_on_square s).filter
    fun mv => !leavesKingCapturable h mv) (allSquares_valid sq hsq)] at hm3
  rw [List.mem_filter] at hm3
  have hf : leavesKingCapturable h m = false := by
    rcases hb : leavesKingCapturable h m
    · rfl
    · exfalso
      have h2 := hm3.2
      rw [hb] at h2
      simp at h2
  rw [kingCapturableAfter_update]
  intro hkc
  rw [← lkc_iff] at hkc
  rw [hf] at hkc
  cases hkc

/-- C1 witness: the amended theorem applied to the initial position and
its freshly built table (the default game): the cached advance a2-a3
leaves no king capturable. -/
theorem C1_amended_witness :
    mA3 ∈ tableGet (initialGame.compute_legal_moves true).legal_moves (6, 0) ∧
    ¬ KingCapturableAfter (initialGame.compute_legal_moves true) mA3 := by
  refine ⟨by decide, ?_⟩
  exact C1_amended initialGame (by decide) rfl rfl (by decide) (6, 0) (by decide)
    mA3 (by decide)

/-- C2_amended: from any reachable position, applying a cached move that
is *coherent with the current board* (`MoveOk`: its capture, en-passant
and castle data match what actually stands there) and then calling
`unmake_move` restores the full state, board, side to move, rights,
en-passant target, clocks and history included.  (Stale cached moves
violating `MoveOk` exist in reachable states and break the round trip:
see the C2 counterexample.) -/
theorem C2_amended {g : Game} (sq : Square) {m : Move} (hr : Reachable g)
    (hm : m ∈ tableGet g.legal_moves sq) (hok : MoveOk g m) :
    (g.make_move m).unmake_move = (g, true) := by
  obtain ⟨hwf, hck, hep, _, _⟩ := reachable_inv hr
  exact make_unmake hwf hck hep hok

/-- C2 witness: the amended theorem applied to the default game and its
cached (coherent) advance a2-a3. -/
theorem C2_amended_witness :
    (defaultGame.make_move mA3).unmake_move = (defaultGame, true) :=
  C2_amended (6, 0) Reachable.start (by decide) (by decide)

/-! ## C9: the en-passant temporal property -/

/-- C9: (a) whenever a cached move of a reachable position carries an
en-passant capture, the history is non-empty and its most recent applied
move was the opposing pawn's two-square advance over the captured-to
square (same column, from one rank beyond the target, landing one rank
short of it); (b) one ply later — whenever some other move has been
applied after the advance — no cached en-passant capture onto the old
target square exists. -/
theorem C9_ep_temporal :
    (∀ g sq m c, Reachable g → sq ∈ allSquares →
      m ∈ tableGet g.legal_moves sq → m.en_passant_capture = some c →
      ∃ adv rest, g.moves = adv :: rest ∧
        adv.en_passant_target_square = some m.to_ ∧
        adv.from_.2 = m.to_.2 ∧ adv.to_.2 = m.to_.2 ∧
        adv.from_.1 = m.to_.1 - dirOf g.turn.invert ∧
        adv.to_.1 = m.to_.1 + dirOf g.turn.invert) ∧
    (∀ g sq m nxt adv rest t, Reachable g → g.moves = nxt :: adv :: rest →
      adv.en_passant_target_square = some t → sq ∈ allSquares →
      m ∈ tableGet g.legal_moves sq → m.en_passant_capture.isSome = true →
      m.to_ ≠ t) := by
  constructor
  · intro g sq m c hr hsq hm hep
    obtain ⟨hwf, hck, hepc, htw, hhist⟩ := reachable_inv hr
    obtain ⟨bb, hbb⟩ := htw sq hsq m hm
    have heq : g.en_passant_target_square = some m.to_ :=
      ((gen_geninv hbb).1 c hep).1
    rw [hepc] at heq
    rcases hmv : g.moves with _ | ⟨adv, rest⟩
    · rw [hmv] at heq
      cases heq
    · rw [hmv] at heq hhist
      have heq' : adv.en_passant_target_square = some m.to_ := heq
      obtain ⟨h1, h2, _⟩ := hhist.1 m.to_ heq'
      have h1a := congrArg Prod.fst h1
      have h1b := congrArg Prod.snd h1
      have h2a := congrArg Prod.fst h2
      have h2b := congrArg Prod.snd h2
      simp only at h1a h1b h2a h2b
      refine ⟨adv, rest, rfl, heq', h1b.symm, ?_, by omega, by omega⟩
      rw [h2b]
      exact h1b.symm
  · intro g sq m nxt adv rest t hr hmv hadv hsq hm heps
    obtain ⟨hwf, hck, hepc, htw, hhist⟩ := reachable_inv hr
    obtain ⟨bb, hbb⟩ := htw sq hsq m hm
    obtain ⟨c, hc⟩ := Option.isSome_iff_exists.mp heps
    have heq : g.en_passant_target_square = some m.to_ :=
      ((gen_geninv hbb).1 c hc).1
    rw [hepc, hmv] at heq
    have heq' : nxt.en_passant_target_square = some m.to_ := heq
    rw [hmv] at hhist
    have hsh2raw : MoveShape g.turn.invert.invert adv := hhist.2.1
    rw [Color.invert_invert] at hsh2raw
    obtain ⟨e1, _, hd1⟩ := hhist.1 m.to_ heq'
    obtain ⟨e2, _, hd2⟩ := hsh2raw t hadv
    intro hcontra
    have r1 := congrArg Prod.fst e1
    have r2 := congrArg Prod.fst e2
    have rt := congrArg Prod.fst hcontra
    simp only at r1 r2 rt
    rcases hd1 with ⟨hc1, hf1⟩ | ⟨hc1, hf1⟩ <;>
      rcases hd2 with ⟨hc2, hf2⟩ | ⟨hc2, hf2⟩
    · rw [hc2] at hc1
      simp [Color.invert] at hc1
    · rw [hc1] at r1
      rw [hc2] at r2
      simp only [dirOf] at r1 r2
      omega
    · rw [hc1] at r1
      rw [hc2] at r2
      simp only [dirOf] at r1 r2
      omega
    · rw [hc2] at hc1
      simp [Color.invert] at hc1


/-! ## Reachability of the concrete traces -/

theorem reachable_sC1 : Reachable sC1 := by
  have r1 := reachable_step Reachable.start (6,6) (4,6) rfl
  have r2 := reachable_step r1 (1,4) (3,4) rfl
  have r3 := reachable_step r2 (7,6) (5,7) rfl
  have r4 := reachable_step r3 (0,3) (4,7) rfl
  have r5 := reachable_step r4 (6,4) (5,4) rfl
  have r6 := reachable_step r5 (4,7) (4,6) rfl
  have r7 := reachable_step r6 (6,5) (5,5) rfl
  have r8 := reachable_step r7 (4,6) (6,6) rfl
  have r9 := reachable_step r8 (6,0) (5,0) rfl
  have r10 := reachable_step r9 (6,6) (7,7) rfl
  have r11 := reachable_step r10 (7,4) (6,4) rfl
  have r12 := reachable_step r11 (1,0) (2,0) rfl
  exact r12

theorem reachable_sC2 : Reachable sC2 := by
  have r1 := reachable_step Reachable.start (6,3) (5,3) rfl
  have r2 := reachable_step r1 (0,6) (2,5) rfl
  have r3 := reachable_step r2 (7,1) (6,3) rfl
  have r4 := reachable_step r3 (2,5) (4,6) rfl
  have r5 := reachable_step r4 (6,5) (5,5) rfl
  have r6 := reachable_step r5 (4,6) (6,7) rfl
  have r7 := reachable_step r6 (6,6) (5,6) rfl
  have r8 := reachable_step r7 (6,7) (7,5) rfl
  have r9 := reachable_step r8 (6,4) (5,4) rfl
  have r10 := reachable_step r9 (1,0) (2,0) rfl
  have r11 := reachable_step r10 (7,4) (6,4) rfl
  have r12 := reachable_step r11 (2,0) (3,0) rfl
  exact r12

theorem reachable_sC4 : Reachable sC4 := by
  have r1 := reachable_step Reachable.start (6,4) (5,4) rfl
  have r2 := reachable_step r1 (1,0) (2,0) rfl
  have r3 := reachable_step r2 (7,4) (6,4) rfl
  exact r3

theorem reachable_sC8 : Reachable sC8 := by
  have r1 := reachable_step Reachable.start (6,0) (5,0) rfl
  have r2 := reachable_step r1 (1,4) (3,4) rfl
  have r3 := reachable_step r2 (6,7) (5,7) rfl
  have r4 := reachable_step r3 (0,4) (1,4) rfl
  have r5 := reachable_step r4 (5,0) (4,0) rfl
  have r6 := reachable_step r5 (1,4) (2,4) rfl
  have r7 := reachable_step r6 (5,7) (4,7) rfl
  exact r7

theorem reachable_sC9 : Reachable sC9 := by
  have r1 := reachable_step Reachable.start (6,4) (4,4) rfl
  have r2 := reachable_step r1 (1,7) (2,7) rfl
  have r3 := reachable_step r2 (4,4) (3,4) rfl
  have r4 := reachable_step r3 (2,7) (3,7) rfl
  have r5 := reachable_step r4 (6,2) (4,2) rfl
  have r6 := reachable_step r5 (1,3) (3,3) rfl
  exact r6

/-! ## The remaining claim theorems -/

/-- C1 counterexample: `sC1` is reachable, its cached table holds the
king retreat e2-e1, yet after that move a pseudo-legal reply captures the
king (the black queen on h1 guards e1): the cached entry is stale, the
final rebuild castle probes having corrupted the table build. -/
theorem C1_counterexample :
    Reachable sC1 ∧ mKe1 ∈ tableGet sC1.legal_moves (6, 4) ∧
    KingCapturableAfter sC1 mKe1 := by
  refine ⟨reachable_sC1, by decide, by decide⟩

/-- C2 counterexample: `sC2` is reachable and caches the capture Nd2xf1,
but the f1 square is empty (the castle probe of the final rebuild deleted
the knight standing there), so apply-then-undo resurrects a black knight
on f1 and does not restore the board. -/
theorem C2_counterexample :
    Reachable sC2 ∧ mNxf1 ∈ tableGet sC2.legal_moves (6, 3) ∧
    (sC2.make_move mNxf1).unmake_move.1.board ≠ sC2.board := by
  refine ⟨reachable_sC2, by decide, by decide⟩

/-- C4: after the committed plain king move 2.Ke2 (trace 1.e3 a6 2.Ke2),
the move record heading the history carries an empty rights delta and the
rights of the game are still all held: plain king moves never clear
castling rights, contradicting the claim. -/
theorem C4_king_move_keeps_rights :
    Reachable sC4 ∧ sC4.moves.head? = some mKe2 ∧
    mKe2.from_ = (7, 4) ∧ mKe2.losing_castle_rights = CastlingRights.noRights ∧
    sC4.castling_rights = CastlingRights.defaultRights := by
  refine ⟨reachable_sC4, by decide, rfl, rfl, by decide⟩

/-- C7 counterexample: in the reachable `sC2` the white king stands on
e2 and a kingside-castle move is generated for it although g1 — a square
strictly between the king home square e1 and the rook home square h1 —
is occupied by the white knight: the emptiness check uses the king's
current row, not the home row. -/
theorem C7_counterexample :
    Reachable sC2 ∧
    sC2.piece_at_square (6, 4) =
      some { piece_type := PieceType.King, color := Color.White } ∧
    mCastleC7 ∈ sC2.compute_legal_moves_on_square (6, 4) ∧
    mCastleC7.castle = some Castling.WhiteKingside ∧
    sC2.castling_rights.white_kingside = true ∧
    sC2.piece_at_square (7, 6) =
      some { piece_type := PieceType.Knight, color := Color.White } := by
  refine ⟨reachable_sC2, by decide, by decide, rfl, by decide, by decide⟩

/-- C8 counterexample: in the reachable `sC8` the f8 square is empty (the
castle probes of the wandering black king deleted the bishop standing
there), yet `request_move` from f8 *succeeds*: the cached list of f8 is
stale and its moves are replayed from an empty square. -/
theorem C8_counterexample :
    Reachable sC8 ∧ sC8.piece_at_square (0, 5) = none ∧
    (sC8.request_move (0, 5) (1, 4)).map Prod.snd = some true := by
  refine ⟨reachable_sC8, by decide, by decide⟩

/-- C9 witness: both parts of the temporal theorem applied to the
reachable position `sC9` (1.e4 h6 2.e5 h5 3.c4 d5) and its cached
en-passant capture e5xd6: the latest history entry is the double advance
d7-d5 over d6, and the capture does not target c3, the square the
one-ply-older advance c2-c4 passed over. -/
theorem C9_witness :
    (∃ adv rest, sC9.moves = adv :: rest ∧
      adv.en_passant_target_square = some mEp.to_ ∧
      adv.from_.2 = mEp.to_.2 ∧ adv.to_.2 = mEp.to_.2 ∧
      adv.from_.1 = mEp.to_.1 - dirOf sC9.turn.invert ∧
      adv.to_.1 = mEp.to_.1 + dirOf sC9.turn.invert) ∧
    mEp.to_ ≠ (5, 2) := by
  refine ⟨C9_ep_temporal.1 sC9 (3, 4) mEp (3, 3) reachable_sC9 (by decide)
    (by decide) rfl, ?_⟩
  exact C9_ep_temporal.2 sC9 (3, 4) mEp mvD5 mvC4adv (sC9.moves.drop 2) (5, 2)
    reachable_sC9 (by decide) rfl (by decide) (by decide) rfl

end Chess
